import Mathlib

/-!
Verification development for the `jsonio` reader pipeline: source
classification, stream opening, backend resolution and the read
orchestrator, embedded shallowly from the Python sources
(`jsonio/_classifier.py`, `jsonio/_jsonio.py`, `jsonio/_resolver.py`,
`jsonio/backend/__init__.py`, `jsonio/backend/json_backend.py`).
Machine integers do not occur; Python strings are modelled as Lean
`String`, byte payloads as `List Nat`, the filesystem as a finite map
from normalized path strings to entry states, and raised exceptions as
`Except` errors.
-/

namespace Jsonio

/-! ## Flags (`jsonio/_utils.py`, `class Flags(IntFlag)`)

A bitmask of independent toggles; membership tests `Flags.X in flags`
become boolean fields. -/

structure Flags where
  safe : Bool
  networkSources : Bool
  dynamicBackend : Bool
  runtimeInstall : Bool
  isPath : Bool
  isJson : Bool
  fsProbe : Bool
deriving DecidableEq, Repr

def Flags.zero : Flags := ⟨false, false, false, false, false, false, false⟩

instance [DecidableEq ε] [DecidableEq α] : DecidableEq (Except ε α) := fun x y =>
  match x, y with
  | .ok a, .ok b => if h : a = b then isTrue (by rw [h]) else isFalse (by simp [h])
  | .error a, .error b => if h : a = b then isTrue (by rw [h]) else isFalse (by simp [h])
  | .ok _, .error _ => isFalse (by simp)
  | .error _, .ok _ => isFalse (by simp)

/-! String primitives, restated structurally over the character list so
that they reduce inside the kernel (`String.startsWith` and friends are
loop-based and do not). -/

def strStarts (s pre : String) : Bool := List.isPrefixOf pre.data s.data

def strEnds (s suf : String) : Bool := List.isSuffixOf suf.data s.data

/-- Python `str.split('/')` on a character list. -/
def splitSlash : List Char → List (List Char)
  | [] => [[]]
  | c :: cs =>
    let r := splitSlash cs
    if c = '/' then [] :: r
    else
      match r with
      | [] => [[c]]
      | h :: t => (c :: h) :: t

def joinSlash : List (List Char) → List Char
  | [] => []
  | [x] => x
  | x :: xs => x ++ '/' :: joinSlash xs

def upperChar (c : Char) : Char :=
  if 'a' ≤ c && c ≤ 'z' then Char.ofNat (c.toNat - 32) else c

def strToUpper (s : String) : String := ⟨s.data.map upperChar⟩

def flagsIsPathOnly : Flags := ⟨false, false, false, false, true, false, false⟩

def flagsIsJsonOnly : Flags := ⟨false, false, false, false, false, true, false⟩

def flagsBoth : Flags := ⟨false, false, false, false, true, true, false⟩

def flagsProbeOnly : Flags := ⟨false, false, false, false, false, false, true⟩

/-! ## `pathlib.Path` string normalization

`Path(s)` parses and `str(Path(s))` re-prints a POSIX path: the root is
`/` (or exactly `//`), components are split on `/`, empty and `.`
components are dropped, and the empty result prints as `.`.  This is the
normalization applied whenever `_classifier.py` does `str(Path(source))`
implicitly through `_safe_is_path(path)` (`string = str(path)`). -/

def pathRoot (s : String) : String :=
  if strStarts s "//" && !(strStarts s "///") then "//"
  else if strStarts s "/" then "/"
  else ""

def pathParts (s : String) : List (List Char) :=
  (splitSlash s.data).filter (fun c => c ≠ [] && c ≠ ['.'])

def pathStr (s : String) : String :=
  let r := pathRoot s
  let body := joinSlash (pathParts s)
  if r.data.isEmpty && body.isEmpty then "." else r ++ ⟨body⟩

/-! ## The safe path heuristic (`SourceClassifier._safe_is_path`)

```
cant_contain = ("{", "[", '"', "'", "b'", "b\"")
path_regex = r"^[a-zA-Z0-9_\-\/\\\.]+$"
string = str(path)
if string.endswith(".json"): return True
if any(c in string for c in cant_contain): return False
if not re.match(path_regex, string): return False
return True
```
The substrings `b'` and `b"` are subsumed by `'` and `"`, so the
containment test reduces to four single characters.  Python's `$`
matches at the end of the string or just before one trailing newline,
so the regex accepts a nonempty run of allowed characters optionally
followed by a single `'\n'`. -/

def jsonStructuralChars : List Char := ['{', '[', '"', '\'']

def containsBad (s : String) : Bool :=
  s.data.any (fun c => jsonStructuralChars.contains c)

def allowedChar (c : Char) : Bool :=
  ('a' ≤ c && c ≤ 'z') || ('A' ≤ c && c ≤ 'Z') || ('0' ≤ c && c ≤ '9')
    || c == '_' || c == '-' || c == '/' || c == '\\' || c == '.'

/-- `re.match(r"^[a-zA-Z0-9_\-\/\\\.]+$", s)` as a boolean: a nonempty
allowed run, or a nonempty allowed run followed by exactly one final
newline (the `$`-before-trailing-newline rule of Python's `re`). -/
def pyMatchAllowed (s : String) : Bool :=
  let cs := s.data
  (!cs.isEmpty && cs.all allowedChar)
    || (cs.getLast? == some '\n' && !cs.dropLast.isEmpty && cs.dropLast.all allowedChar)

def safeIsPath (s : String) : Bool :=
  if strEnds s ".json" then true
  else if containsBad s then false
  else if !pyMatchAllowed s then false
  else true

/-! ## Filesystem model

`FsEntry.err` stands for any path on which `Path.touch()` raises
(permission denied, invalid name, missing parent directory, ...).
`touch` succeeds on an absent path (creating an empty file) and on an
existing file or directory (updating its mtime); `unlink` removes a
file and raises `IsADirectoryError` on a directory. -/

inductive FsEntry
  | absent
  | file (content : String)
  | dir
  | err
deriving DecidableEq, Repr

def Fs := String → FsEntry

def Fs.update (fs : Fs) (p : String) (e : FsEntry) : Fs :=
  fun q => if q = p then e else fs q

def emptyFs : Fs := fun _ => .absent

/-- `SourceClassifier._unsafe_is_path` probe body:
`path.touch(); path.unlink(); return True`, any exception swallowed as
`False`.  Touch-then-unlink on an existing file deletes it. -/
def probe (fs : Fs) (p : String) : Bool × Fs :=
  match fs p with
  | .absent => (true, fs)
  | .file _ => (true, fs.update p .absent)
  | .dir => (false, fs)
  | .err => (false, fs)

/-! ## Source values, classification kinds, and Python exceptions -/

/-- The shapes `classify_source` can receive.  `obj` is any value with
neither a textual/bytes/path shape nor a `read` attribute; its
`strRepr` is what `str(source)` returns, `Option.none` when `__str__`
raises.  `stream` is any value exposing `read()`, carrying the payload
that a later `read()` call would yield (binary or text). -/
inductive SourceValue
  | none
  | str (s : String)
  | path (p : String)
  | bytes (bs : List Nat)
  | stream (data : Sum (List Nat) String)
  | obj (strRepr : Option String)
deriving DecidableEq, Repr

inductive SourceType
  | URL
  | PATH
  | JSON_STR
  | BYTES
  | STREAM
deriving DecidableEq, Repr

/-- The normalized second component of the classification result. -/
inductive Norm
  | nstr (s : String)
  | npath (p : String)
  | nbytes (bs : List Nat)
  | nstream (data : Sum (List Nat) String)
deriving DecidableEq, Repr

/-- Raised Python exceptions, one constructor per raise site that the
embedded code can reach. -/
inductive PyErr
  | noneClassify          -- ValueError("Cannot read from None")
  | isJsonNotString       -- ValueError("IS_JSON flag is set but not a string")
  | pathTypeError         -- TypeError from Path(source) on a non-str/Path argument
  | coercionError         -- str(source) raised in the case-8 fallback
  | noneSourceRead        -- ValueError("NoneType is not a valid source ...")
  | bothFlags             -- ValueError("IS_JSON and IS_PATH cannot be used together")
  | decoderClsTypeError   -- TypeError from issubclass(decoder_cls, JSONDecoder)
  | fileNotFound (p : String)
  | isADirectory (p : String)
  | keyErrorLimit (n : String)  -- BackendLimit[name.upper()] lookup failure
  | netError (u : String)
  | decodeBytesError
  | decoderNotSupported   -- TypeError("decoder_cls is not supported by this backend")
  | unexpectedKwargCls    -- TypeError: load() got an unexpected keyword argument 'cls'
  | jsonDecodeError
  | validatorError (n : Nat)
  | importError (b : String)
  | unsupportedBackend (b : String)  -- ValueError("Unsupported backend: ...")
  | invalidBackendName (n : String)  -- ValueError("Invalid backend '...'")
  | configMissingBackend  -- ValueError("Either 'backend_name' or 'backend_class' ...")
  | unexpectedRuntime     -- unreachable kind/payload combination
deriving DecidableEq, Repr

/-- Python `Path(source)` succeeds only on `str`/`Path` arguments and
raises `TypeError` otherwise; the constructed object prints as the
normalized string. -/
def asPathStr : SourceValue → Option String
  | .str s => some (pathStr s)
  | .path p => some (pathStr p)
  | _ => Option.none

def isUrlStr (s : String) : Bool :=
  strStarts s "http://" || strStarts s "https://"

/-- `_is_path`: safe heuristic when `Flags.SAFE` is set, the
filesystem probe when `Flags.FS_PROBE` is set (and SAFE is not), and
the safe heuristic again as the final fallback. -/
def isPathHeuristic (policyFlags : Flags) (fs : Fs) (p : String) : Bool × Fs :=
  if policyFlags.safe then (safeIsPath p, fs)
  else if policyFlags.fsProbe then probe fs p
  else (safeIsPath p, fs)

/-- The body shared verbatim by `SourceClassifier.classify_source`
(where force and policy flags are the same argument) and
`JsonIOReader._classify_source` (where IS_JSON/IS_PATH come from the
call's flags and SAFE/FS_PROBE from the reader's constructor flags). -/
def classifyCore (forceFlags policyFlags : Flags) (src : SourceValue) (fs : Fs) :
    Except PyErr (SourceType × Norm) × Fs :=
  if src = .none then (.error .noneClassify, fs)
  else if forceFlags.isJson then
    match src with
    | .str s => (.ok (.JSON_STR, .nstr s), fs)
    | _ => (.error .isJsonNotString, fs)
  else if forceFlags.isPath then
    match asPathStr src with
    | some p => (.ok (.PATH, .npath p), fs)
    | Option.none => (.error .pathTypeError, fs)
  else
    match src with
    | .none => (.error .noneClassify, fs)  -- unreachable: the null check ran first
    | .str s =>
      if isUrlStr s then (.ok (.URL, .nstr s), fs)
      else
        let r := isPathHeuristic policyFlags fs (pathStr s)
        (if r.1 then .ok (.PATH, .npath (pathStr s)) else .ok (.JSON_STR, .nstr s), r.2)
    | .path p =>
        let r := isPathHeuristic policyFlags fs (pathStr p)
        -- on heuristic failure a Path has no `read`, so the case-8
        -- fallback coerces it with str(source) = its normalized form
        (if r.1 then .ok (.PATH, .npath (pathStr p)) else .ok (.JSON_STR, .nstr (pathStr p)), r.2)
    | .bytes bs => (.ok (.BYTES, .nbytes bs), fs)
    | .stream d => (.ok (.STREAM, .nstream d), fs)
    | .obj (some s) => (.ok (.JSON_STR, .nstr s), fs)
    | .obj Option.none => (.error .coercionError, fs)

/-- `SourceClassifier.classify_source(source, flags)`: one flag set
drives both the forced kinds and the heuristic policy. -/
def SourceClassifier.classify_source (src : SourceValue) (flags : Flags) (fs : Fs) :
    Except PyErr (SourceType × Norm) × Fs :=
  classifyCore flags flags src fs

/-! ## JSON values and the baseline codec

Modelled from the spec: the baseline codec (`JsonBackend` in
`jsonio/backend/json_backend.py`) delegates to the standard library's
`json.dumps` / `json.load`, whose internals are not part of this
repository; spec section 6 treats codec internals as external
collaborators and section 8 states the round-trip contract.  The
encoder below follows `json.dumps` defaults (`ensure_ascii=True`,
separators `", "` and `": "`); the decoder follows the JSON grammar
that `json.loads` accepts in strict mode.  Numbers are modelled as
arbitrary-precision integers (Python `int`); IEEE-754 floats are
outside the model. -/

inductive Json
  | null
  | bool (b : Bool)
  | num (n : Int)
  | str (s : String)
  | arr (elems : List Json)
  | obj (members : List (String × Json))

/-- Lowercase hexadecimal digit, as used in `\uXXXX` escapes. -/
def hexDigit (n : Nat) : Char :=
  if n < 10 then Char.ofNat (48 + n) else Char.ofNat (87 + n)

def hex4 (n : Nat) : List Char :=
  [hexDigit (n / 4096 % 16), hexDigit (n / 256 % 16), hexDigit (n / 16 % 16), hexDigit (n % 16)]

/-- One character of a string payload under `ensure_ascii=True`: short
escapes for the two delimiters and the five control characters with
names, printable ASCII as-is, everything else as `\uXXXX` (a surrogate
pair beyond the basic multilingual plane). -/
def escapeChar (c : Char) : List Char :=
  if c = '"' then ['\\', '"']
  else if c = '\\' then ['\\', '\\']
  else if c.toNat = 8 then ['\\', 'b']
  else if c.toNat = 12 then ['\\', 'f']
  else if c = '\n' then ['\\', 'n']
  else if c.toNat = 13 then ['\\', 'r']
  else if c = '\t' then ['\\', 't']
  else if 32 ≤ c.toNat ∧ c.toNat ≤ 126 then [c]
  else if c.toNat < 65536 then '\\' :: 'u' :: hex4 c.toNat
  else
    ('\\' :: 'u' :: hex4 (55296 + (c.toNat - 65536) / 1024))
      ++ ('\\' :: 'u' :: hex4 (56320 + (c.toNat - 65536) % 1024))

def escBody (l : List Char) : List Char :=
  (l.map escapeChar).flatten

def encStr (s : String) : List Char :=
  '"' :: escBody s.data ++ ['"']

def digitChar (n : Nat) : Char := Char.ofNat (48 + n)

/-- Base-10 digits of a positive number, most significant first. -/
def natDigs : Nat → List Char
  | 0 => []
  | n+1 => natDigs ((n+1) / 10) ++ [digitChar ((n+1) % 10)]
decreasing_by exact Nat.div_lt_self (Nat.succ_pos n) (by decide)

def natChars (n : Nat) : List Char :=
  if n = 0 then ['0'] else natDigs n

def intChars (i : Int) : List Char :=
  if i < 0 then '-' :: natChars i.natAbs else natChars i.natAbs

mutual

/-- `json.dumps` with default separators, as a character list. -/
def encChars : Json → List Char
  | .null => 'n' :: 'u' :: 'l' :: 'l' :: []
  | .bool true => 't' :: 'r' :: 'u' :: 'e' :: []
  | .bool false => 'f' :: 'a' :: 'l' :: 's' :: 'e' :: []
  | .num i => intChars i
  | .str s => encStr s
  | .arr [] => ['[', ']']
  | .arr (x :: xs) => '[' :: (encChars x ++ encItems xs) ++ [']']
  | .obj [] => ['{' , '}']
  | .obj (m :: ms) => '{' :: (encMember m ++ encMembers ms) ++ ['}']

def encItems : List Json → List Char
  | [] => []
  | x :: xs => ',' :: ' ' :: encChars x ++ encItems xs

def encMember : String × Json → List Char
  | (k, v) => encStr k ++ ':' :: ' ' :: encChars v

def encMembers : List (String × Json) → List Char
  | [] => []
  | m :: ms => ',' :: ' ' :: encMember m ++ encMembers ms

end

def jsonDumps (v : Json) : String := ⟨encChars v⟩

def isWsChar (c : Char) : Bool :=
  c == ' ' || c == '\t' || c == '\n' || c == '\r'

def skipWs : List Char → List Char
  | [] => []
  | c :: cs => if isWsChar c then skipWs cs else c :: cs

def hexVal (c : Char) : Option Nat :=
  if '0' ≤ c && c ≤ '9' then some (c.toNat - 48)
  else if 'a' ≤ c && c ≤ 'f' then some (c.toNat - 87)
  else if 'A' ≤ c && c ≤ 'F' then some (c.toNat - 55)
  else Option.none

def parseHex4 : List Char → Option (Nat × List Char)
  | c3 :: c2 :: c1 :: c0 :: rest =>
    match hexVal c3, hexVal c2, hexVal c1, hexVal c0 with
    | some d3, some d2, some d1, some d0 => some (d3 * 4096 + d2 * 256 + d1 * 16 + d0, rest)
    | _, _, _, _ => Option.none
  | _ => Option.none

/-- The named single-character escapes of the JSON grammar (the `\uXXXX`
form is handled separately). -/
def simpleEsc (e : Char) : Option Char :=
  if e = '"' then some '"'
  else if e = '\\' then some '\\'
  else if e = '/' then some '/'
  else if e = 'b' then some (Char.ofNat 8)
  else if e = 'f' then some (Char.ofNat 12)
  else if e = 'n' then some '\n'
  else if e = 'r' then some (Char.ofNat 13)
  else if e = 't' then some '\t'
  else Option.none

/-- One `\uXXXX` escape (the leading `\u` already consumed), including
surrogate-pair recombination.  A lone surrogate is rejected (CPython
would keep it, but such a string is not representable as a sequence of
Unicode scalar values). -/
def parseUEscape (cs : List Char) : Option (Char × List Char) :=
  match parseHex4 cs with
  | Option.none => Option.none
  | some (n, cs2) =>
    if 55296 ≤ n ∧ n < 56320 then
      match cs2 with
      | '\\' :: 'u' :: cs3 =>
        match parseHex4 cs3 with
        | some (m, cs4) =>
          if 56320 ≤ m ∧ m < 57344 then
            some (Char.ofNat (65536 + (n - 55296) * 1024 + (m - 56320)), cs4)
          else Option.none
        | Option.none => Option.none
      | _ => Option.none
    else if 56320 ≤ n ∧ n < 57344 then Option.none
    else some (Char.ofNat n, cs2)

/-- String body after the opening quote: strict mode (unescaped control
characters rejected), named escapes and `\uXXXX` escapes. -/
def parseStrBody (fuel : Nat) (cs : List Char) : Option (List Char × List Char) :=
  match fuel, cs with
  | 0, _ => Option.none
  | _, [] => Option.none
  | f+1, c :: cs =>
    if c = '"' then some ([], cs)
    else if c = '\\' then
      match cs with
      | [] => Option.none
      | 'u' :: cs' =>
        match parseUEscape cs' with
        | some (d, cs2) => (parseStrBody f cs2).map (fun r => (d :: r.1, r.2))
        | Option.none => Option.none
      | e :: cs' =>
        match simpleEsc e with
        | some d => (parseStrBody f cs').map (fun r => (d :: r.1, r.2))
        | Option.none => Option.none
    else if c.toNat < 32 then Option.none
    else (parseStrBody f cs).map (fun r => (c :: r.1, r.2))

def charsToNat (l : List Char) : Nat :=
  l.foldl (fun a c => 10 * a + (c.toNat - 48)) 0

/-- Unsigned integer literal per the JSON grammar `0|[1-9][0-9]*`. -/
def parseUNum : List Char → Option (Nat × List Char)
  | [] => Option.none
  | c :: rest =>
    if c = '0' then some (0, rest)
    else if c.isDigit then
      some (charsToNat (c :: rest.takeWhile Char.isDigit), rest.dropWhile Char.isDigit)
    else Option.none

def parseNum : List Char → Option (Int × List Char)
  | '-' :: rest => (parseUNum rest).map (fun r => (-(r.1 : Int), r.2))
  | cs => (parseUNum cs).map (fun r => ((r.1 : Int), r.2))

mutual

/-- Fueled recursive-descent value parser; whitespace is skipped before
every value and around the structural tokens of containers. -/
def parseValue (fuel : Nat) (cs : List Char) : Option (Json × List Char) :=
  match fuel with
  | 0 => Option.none
  | f+1 =>
    match skipWs cs with
    | 'n' :: 'u' :: 'l' :: 'l' :: rest => some (.null, rest)
    | 't' :: 'r' :: 'u' :: 'e' :: rest => some (.bool true, rest)
    | 'f' :: 'a' :: 'l' :: 's' :: 'e' :: rest => some (.bool false, rest)
    | '"' :: rest => (parseStrBody (rest.length + 1) rest).map (fun r => (.str ⟨r.1⟩, r.2))
    | '[' :: rest =>
      (match skipWs rest with
       | ']' :: r2 => some (.arr [], r2)
       | _ => (parseItems f rest).map (fun r => (.arr r.1, r.2)))
    | '{' :: rest =>
      (match skipWs rest with
       | '}' :: r2 => some (.obj [], r2)
       | _ => (parseMembers f rest).map (fun r => (.obj r.1, r.2)))
    | cs' => (parseNum cs').map (fun r => (.num r.1, r.2))

def parseItems (fuel : Nat) (cs : List Char) : Option (List Json × List Char) :=
  match fuel with
  | 0 => Option.none
  | f+1 =>
    match parseValue f cs with
    | Option.none => Option.none
    | some (v, r) =>
      match skipWs r with
      | ',' :: r2 => (parseItems f r2).map (fun t => (v :: t.1, t.2))
      | ']' :: r2 => some ([v], r2)
      | _ => Option.none

def parseMembers (fuel : Nat) (cs : List Char) : Option (List (String × Json) × List Char) :=
  match fuel with
  | 0 => Option.none
  | f+1 =>
    match skipWs cs with
    | '"' :: rest =>
      match parseStrBody (rest.length + 1) rest with
      | Option.none => Option.none
      | some (k, r) =>
        match skipWs r with
        | ':' :: r2 =>
          match parseValue f r2 with
          | Option.none => Option.none
          | some (v, r3) =>
            match skipWs r3 with
            | ',' :: r4 => (parseMembers f r4).map (fun t => ((⟨k⟩, v) :: t.1, t.2))
            | '}' :: r4 => some ([(⟨k⟩, v)], r4)
            | _ => Option.none
        | _ => Option.none
    | _ => Option.none

end

/-- `json.loads`: parse one value, then require only whitespace to
remain ("Extra data" otherwise). -/
def jsonLoads (s : String) : Except PyErr Json :=
  match parseValue (s.length + 1) s.data with
  | some (v, rest) => if (skipWs rest).isEmpty then .ok v else .error .jsonDecodeError
  | Option.none => .error .jsonDecodeError

/-! ## Codec capability surface -/

/-- A backend instance as the orchestrator observes it.
`hasLoadLoads`: whether `isinstance(obj, PluggableJsonLoaderProtocol)`
holds — the runtime-checkable protocol only tests that `load`/`loads`
attributes exist.  `acceptsCls`: whether the instance's `load` accepts
a `cls` keyword argument (`JsonBackend.load(fp, encoding, decoder_class)`
does not, and raises `TypeError` on one).  `decode` is the behavior of
`load` on the drained text of the stream. -/
structure Codec where
  hasLoadLoads : Bool
  acceptsCls : Bool
  decode : String → Except PyErr Json

/-- The baseline backend: standard-library decoding, `load`/`loads`
present, no `cls` keyword in its signature. -/
def jsonBackendCodec : Codec := ⟨true, false, jsonLoads⟩

/-- External backends (`orjson`, `ujson`, ...) are third-party packages
whose decode internals are out of scope; only their availability matters
to the claims. -/
def externalCodec : Codec := ⟨true, false, fun _ => .error .jsonDecodeError⟩

/-! ## Stream opener (`JsonIOReader._open`) -/

/-- Observable side effects of one read call. -/
inductive Event
  | fsOpen (p : String)
  | net (u : String)
deriving DecidableEq, Repr

/-- External-world behavior: the network and the text decoding of byte
payloads under the chosen encoding. -/
structure Env where
  netFetch : String → Except PyErr String
  decodeBytes : List Nat → Except PyErr String

/-- A concrete environment for closed statements: no network, and byte
payloads that fail to decode. -/
def env0 : Env := ⟨fun u => .error (.netError u), fun _ => .error .decodeBytesError⟩

def backendLimit (n : String) : Option Nat :=
  if n = "JSON" then some (150 * 1024 ^ 2)
  else if n = "ORJSON" then some (250 * 1024 ^ 2)
  else if n = "UJSON" then some (200 * 1024 ^ 2)
  else if n = "IJSON" then some (2 ^ 31 - 1)
  else if n = "RAPIDJSON" then some (50 * 1024 ^ 2)
  else if n = "SIMPLEJSON" then some (50 * 1024 ^ 2)
  else if n = "CUSTOM" then some (2 ^ 31 - 1)
  else Option.none

/-- The PATH branch of `_open`: `FileNotFoundError` when the path does
not exist (or is inaccessible), `IsADirectoryError` on a directory,
then `BackendLimit[self._backend_name.upper()]` — a `KeyError` when the
backend name is not in the enum — and finally the open itself.  The
size comparison only logs and has no control effect. -/
def openPath (fs : Fs) (backendName : String) (p : String) :
    Except PyErr String × List Event :=
  match fs p with
  | .absent => (.error (.fileNotFound p), [])
  | .err => (.error (.fileNotFound p), [])
  | .dir => (.error (.isADirectory p), [])
  | .file content =>
    match backendLimit (strToUpper backendName) with
    | Option.none => (.error (.keyErrorLimit backendName), [])
    | some _ => (.ok content, [.fsOpen p])

/-- `_open(norm_source, src_type, encoding)`: every branch yields an
in-memory text stream, modelled by its drained contents. -/
def openSrc (env : Env) (fs : Fs) (backendName : String) (st : SourceType) (n : Norm) :
    Except PyErr String × List Event :=
  match st, n with
  | .URL, .nstr u => (env.netFetch u, [.net u])
  | .PATH, .npath p => openPath fs backendName p
  | .BYTES, .nbytes bs => (env.decodeBytes bs, [])
  | .JSON_STR, .nstr s => (.ok s, [])
  | .STREAM, .nstream (Sum.inl bs) => (env.decodeBytes bs, [])
  | .STREAM, .nstream (Sum.inr s) => (.ok s, [])
  | _, _ => (.error .unexpectedRuntime, [])  -- kind/payload mismatches never produced

/-! ## Reader orchestrator (`JsonIOReader`) -/

/-- Error surface of `read`: `config` errors are raised before the
try-block, `parsing` is `JsonParsingError(cause)` raised by its
`except Exception` handler. -/
inductive ReadErr
  | config (e : PyErr)
  | parsing (cause : PyErr)
deriving DecidableEq, Repr

/-- Reader state after `__init__`: the constructor flags, the resolved
backend name, and the instance cache `_backend_instance`. -/
structure Reader where
  flags : Flags
  backendName : String
  backendInstance : Option Codec

/-- `__init__` sets `self._backend_instance = None` before resolving
the backend class. -/
def mkReader (flags : Flags) (backendName : String) : Reader :=
  ⟨flags, backendName, Option.none⟩

/-- The `backend` property: it constructs the instance only when
`hasattr(self, "_backend_instance")` is false — but `__init__` always
pre-sets that attribute (to `None`), so the property returns the cached
value and the lazy construction never runs. -/
def Reader.backend (r : Reader) : Option Codec := r.backendInstance

/-- `decoder_cls` argument: Python `None` (on which
`issubclass` itself raises `TypeError`) or a class together with
whether it is a subclass of `json.JSONDecoder`. -/
inductive DecoderArg
  | pyNone
  | cls (isJSONDecoderSub : Bool)
deriving DecidableEq, Repr

/-- The signature default `decoder_cls: DecoderClass = JSONDecoder`:
a genuine `JSONDecoder` subclass, not absent. -/
def defaultDecoderCls : DecoderArg := .cls true

/-- `JsonIOReader.read`.  `flags` are the call's flags (IS_JSON /
IS_PATH); the heuristic policy flags (SAFE / FS_PROBE) come from
`r.flags` because `_is_path` consults `self.flags`.  The validator is
modelled by what it raises on the decoded value (`Option.none` for a
clean pass).  Returns the outcome, the I/O events in order, and the
final filesystem. -/
def JsonIOReader.read (r : Reader) (source : SourceValue) (flags : Flags)
    (decoderCls : DecoderArg) (validator : Option (Json → Option PyErr))
    (env : Env) (fs : Fs) : Except ReadErr Json × List Event × Fs :=
  -- pre-I/O checks, outside the try-block
  if source = .none then (.error (.config .noneSourceRead), [], fs)
  else if flags.isJson && flags.isPath then (.error (.config .bothFlags), [], fs)
  else
    match decoderCls with
    | .pyNone => (.error (.config .decoderClsTypeError), [], fs)
    | .cls false => (.error (.config .decoderClsTypeError), [], fs)
    | .cls true =>
      -- try-block: classify → open → decode → validate,
      -- `except Exception as e: raise JsonParsingError(e) from e`
      match classifyCore flags r.flags source fs with
      | (.error e, fs') => (.error (.parsing e), [], fs')
      | (.ok (st, n), fs') =>
        match openSrc env fs' r.backendName st n with
        | (.error e, evs) => (.error (.parsing e), evs, fs')
        | (.ok content, evs) =>
          -- every opened stream has `read`, and `decoder_cls` is not
          -- None here, so the pluggable-capability check always runs
          match r.backend with
          | Option.none => (.error (.parsing .decoderNotSupported), evs, fs')
          | some c =>
            if !c.hasLoadLoads then (.error (.parsing .decoderNotSupported), evs, fs')
            else if !c.acceptsCls then
              -- parse_kwargs["cls"] = decoder_cls; backend.load(fp, cls=...)
              (.error (.parsing .unexpectedKwargCls), evs, fs')
            else
              match c.decode content with
              | .error e => (.error (.parsing e), evs, fs')
              | .ok result =>
                match validator with
                | some v =>
                  (match v result with
                   | some e => (.error (.parsing e), evs, fs')  -- validate(result) sits inside the try
                   | Option.none => (.ok result, evs, fs'))
                | Option.none => (.ok result, evs, fs')

/-! ## Backend registry and resolver
(`jsonio/backend/__init__.py`, `jsonio/_resolver.py`) -/

inductive BackendId
  | json
  | orjson
  | ujson
  | ijson
  | rapidjson
  | simplejson
  | custom
deriving DecidableEq, Repr

def BackendId.value : BackendId → String
  | .json => "json"
  | .orjson => "orjson"
  | .ujson => "ujson"
  | .ijson => "ijson"
  | .rapidjson => "rapidjson"
  | .simplejson => "simplejson"
  | .custom => "custom"

/-- `Backend(backend_name)`: enum lookup by value. -/
def backendFromName (s : String) : Option BackendId :=
  if s = "json" then some .json
  else if s = "orjson" then some .orjson
  else if s = "ujson" then some .ujson
  else if s = "ijson" then some .ijson
  else if s = "rapidjson" then some .rapidjson
  else if s = "simplejson" then some .simplejson
  else if s = "custom" then some .custom
  else Option.none

/-- Membership in `_BACKEND_CLASSES` (ijson and custom have no
registered implementation module). -/
def registeredClass : BackendId → Bool
  | .json => true
  | .orjson => true
  | .ujson => true
  | .rapidjson => true
  | .simplejson => true
  | .ijson => false
  | .custom => false

/-- Membership in `InstallerFactory._INSTALLERS`; `get_installer`
raises `ValueError` for the rest. -/
def installerRegistered : BackendId → Bool
  | .orjson => true
  | .ujson => true
  | .rapidjson => true
  | .simplejson => true
  | _ => false

def codecFor : BackendId → Codec
  | .json => jsonBackendCodec
  | _ => externalCodec

/-- The runtime environment a resolution runs against: which imports
succeed, whether `installer.install()` completes without raising, and
whether the import succeeds after a completed install. -/
structure PkgEnv where
  importOk : BackendId → Bool
  installRuns : BackendId → Bool
  importAfterInstall : BackendId → Bool

inductive LEvent
  | importAttempt (b : BackendId)
  | installAttempt (b : BackendId)
deriving DecidableEq, Repr

/-- `load_backend(backend, flags)`: the `ValueError` for unregistered
ids precedes the try; on `ImportError`, with `Flags.RUNTIME_INSTALL`
the installer is fetched and run and the import retried once, any
failure in that block being re-raised as `ImportError`; without the
flag the `ImportError` is re-raised directly. -/
def load_backend (b : BackendId) (flags : Flags) (env : PkgEnv) :
    Except PyErr Codec × List LEvent :=
  if !registeredClass b then (.error (.unsupportedBackend b.value), [])
  else if env.importOk b then (.ok (codecFor b), [.importAttempt b])
  else if flags.runtimeInstall then
    if installerRegistered b && env.installRuns b then
      if env.importAfterInstall b then
        (.ok (codecFor b), [.importAttempt b, .installAttempt b, .importAttempt b])
      else
        (.error (.importError b.value), [.importAttempt b, .installAttempt b, .importAttempt b])
    else
      -- get_installer raised, or install() raised: caught and re-raised
      -- as ImportError before any retry import
      (.error (.importError b.value), [.importAttempt b, .installAttempt b])
  else (.error (.importError b.value), [.importAttempt b])

/-- `ReaderConfig` (`jsonio/_config.py`), restricted to the fields the
resolver consumes. -/
structure ReaderConfig where
  safeMode : Bool
  runtimeInstall : Bool
  backendName : Option String
  backendClass : Option Codec

/-- `config.resolver_flags`: the SAFE / RUNTIME_INSTALL projection. -/
def ReaderConfig.resolverFlags (c : ReaderConfig) : Flags :=
  ⟨c.safeMode, false, false, c.runtimeInstall, false, false, false⟩

/-- `BackendResolver.resolve_backend(config)`: explicit class short
circuit, name validation against the enum, lazy load, and — only on
`ImportError` — either re-raise (safe mode) or fall back to the
baseline `JsonBackend`. -/
def BackendResolver.resolve_backend (cfg : ReaderConfig) (env : PkgEnv) :
    Except PyErr (Codec × String) × List LEvent :=
  match cfg.backendName, cfg.backendClass with
  | Option.none, Option.none => (.error .configMissingBackend, [])
  | nm, some c =>
    -- issubclass against the empty marker protocol always passes;
    -- the display name falls back to the class name
    (.ok (c, match nm with | some n => n | Option.none => "jsonbackend"), [])
  | some n, Option.none =>
    match backendFromName n with
    | Option.none => (.error (.invalidBackendName n), [])
    | some b =>
      match load_backend b cfg.resolverFlags env with
      | (.ok c, evs) => (.ok (c, n), evs)
      | (.error (.importError m), evs) =>
        if cfg.safeMode then (.error (.importError m), evs)
        else (.ok (jsonBackendCodec, BackendId.json.value), evs)
      | (.error e, evs) => (.error e, evs)  -- only ImportError is caught

/-! ## Specification-side definitions for the refinement claims -/

/-- The safe path heuristic exactly as claim C1 words it, applied to
the textual value itself: accept on a `.json` suffix; reject on `{`,
`[` or a quote character; reject unless every character is a letter,
digit, or one of `_-./\`; otherwise accept. -/
def specSafeHeuristicC1 (s : String) : Bool :=
  if strEnds s ".json" then true
  else if containsBad s then false
  else if !(s.data.all allowedChar) then false
  else true

/-- The kind chosen by the first matching rule of claim C1's eight-step
order, exactly as the claim words it. -/
def specClassifyKindC1 (flags : Flags) (src : SourceValue) : Except PyErr SourceType :=
  match src with
  | .none => .error .noneClassify
  | .str s =>
    if flags.isJson then .ok .JSON_STR
    else if flags.isPath then .ok .PATH
    else if isUrlStr s then .ok .URL
    else if specSafeHeuristicC1 s then .ok .PATH
    else .ok .JSON_STR
  | .path p =>
    if flags.isJson then .ok .JSON_STR
    else if flags.isPath then .ok .PATH
    else if specSafeHeuristicC1 (pathStr p) then .ok .PATH
    else .ok .JSON_STR
  | .bytes _ =>
    if flags.isJson then .ok .JSON_STR
    else if flags.isPath then .ok .PATH
    else .ok .BYTES
  | .stream _ =>
    if flags.isJson then .ok .JSON_STR
    else if flags.isPath then .ok .PATH
    else .ok .STREAM
  | .obj r =>
    if flags.isJson then .ok .JSON_STR
    else if flags.isPath then .ok .PATH
    else match r with
      | some _ => .ok .JSON_STR
      | Option.none => .error .coercionError

/-- The heuristic of claim C1 as amended: it runs on the normalized
path string, and the allow-list test is the anchored regex, which also
accepts a single trailing newline. -/
def amendedSafeHeuristicC1 (s : String) : Bool :=
  if strEnds s ".json" then true
  else if containsBad s then false
  else if !pyMatchAllowed s then false
  else true

/-- Claim C1 as amended: the eight-step order with the forced kinds
guarded by their type requirements, the heuristic applied to the
normalized path string, and the amended allow-list test. -/
def amendedClassifyC1 (flags : Flags) (src : SourceValue) : Except PyErr (SourceType × Norm) :=
  match src with
  | .none => .error .noneClassify
  | .str s =>
    if flags.isJson then .ok (.JSON_STR, .nstr s)
    else if flags.isPath then .ok (.PATH, .npath (pathStr s))
    else if isUrlStr s then .ok (.URL, .nstr s)
    else if amendedSafeHeuristicC1 (pathStr s) then .ok (.PATH, .npath (pathStr s))
    else .ok (.JSON_STR, .nstr s)
  | .path p =>
    if flags.isJson then .error .isJsonNotString
    else if flags.isPath then .ok (.PATH, .npath (pathStr p))
    else if amendedSafeHeuristicC1 (pathStr p) then .ok (.PATH, .npath (pathStr p))
    else .ok (.JSON_STR, .nstr (pathStr p))
  | .bytes bs =>
    if flags.isJson then .error .isJsonNotString
    else if flags.isPath then .error .pathTypeError
    else .ok (.BYTES, .nbytes bs)
  | .stream d =>
    if flags.isJson then .error .isJsonNotString
    else if flags.isPath then .error .pathTypeError
    else .ok (.STREAM, .nstream d)
  | .obj r =>
    if flags.isJson then .error .isJsonNotString
    else if flags.isPath then .error .pathTypeError
    else match r with
      | some s => .ok (.JSON_STR, .nstr s)
      | Option.none => .error .coercionError

/-- Whether the source is textual (a Python `str`). -/
def textual : SourceValue → Bool
  | .str _ => true
  | _ => false

def exceptIsOk : Except ε α → Bool
  | .ok _ => true
  | .error _ => false

/-- `isinstance(self.backend, PluggableJsonLoaderProtocol)` fails:
either the instance cache holds `None`, or the object lacks the
protocol's methods. -/
def lacksPluggable (r : Reader) : Bool :=
  match r.backendInstance with
  | Option.none => true
  | some c => !c.hasLoadLoads

/-- Whether the remainder cannot extend a just-parsed integer literal:
empty, or starting with a non-digit. -/
def headNotDigit : List Char → Bool
  | [] => true
  | c :: _ => !c.isDigit

def nodupKeysB : List String → Bool
  | [] => true
  | k :: ks => (!ks.contains k) && nodupKeysB ks

mutual

/-- JSON-representability as the claim words it: objects carry unique
string keys, recursively. -/
def uniqueKeysB : Json → Bool
  | .null => true
  | .bool _ => true
  | .num _ => true
  | .str _ => true
  | .arr xs => uniqueKeysList xs
  | .obj ms => nodupKeysB (ms.map Prod.fst) && uniqueKeysMembers ms

def uniqueKeysList : List Json → Bool
  | [] => true
  | x :: xs => uniqueKeysB x && uniqueKeysList xs

def uniqueKeysMembers : List (String × Json) → Bool
  | [] => true
  | (_, v) :: ms => uniqueKeysB v && uniqueKeysMembers ms

end

mutual

/-- Fuel sufficient for `parseValue` to consume the encoding of a
value: one unit per parser-level recursion. -/
def jfuel : Json → Nat
  | .null => 1
  | .bool _ => 1
  | .num _ => 1
  | .str _ => 1
  | .arr xs => 1 + jfuelItems xs
  | .obj ms => 1 + jfuelMembers ms

def jfuelItems : List Json → Nat
  | [] => 0
  | x :: xs => 1 + jfuel x + jfuelItems xs

def jfuelMembers : List (String × Json) → Nat
  | [] => 0
  | (_, v) :: ms => 1 + jfuel v + jfuelMembers ms

end

/-- A list nested `n` levels deep, exercising the deep-nesting part of
the round-trip contract. -/
def deepNest : Nat → Json
  | 0 => .null
  | n+1 => .arr [deepNest n]

/-! ## Theorems -/

theorem safeIsPath_eq_amendedC1 : safeIsPath = amendedSafeHeuristicC1 := rfl

theorem isPathHeuristic_safePolicy (flags : Flags) (fs : Fs) (p : String)
    (h : flags.safe = true ∨ (flags.safe = false ∧ flags.fsProbe = false)) :
    isPathHeuristic flags fs p = (safeIsPath p, fs) := by
  rcases h with h | ⟨h1, h2⟩
  · simp [isPathHeuristic, h]
  · simp [isPathHeuristic, h1, h2]

/-- Claim C1 (corrected), counterexample: for the source `"a\n"` under
empty flags (safe policy by fallback) the code classifies `Path` — the
anchored regex accepts the trailing newline — while the claim's
heuristic rejects it (`'\n'` is not in the allow-list), sending it to
the JsonText fallback. -/
theorem C1_counterexample :
    (SourceClassifier.classify_source (.str "a\n") Flags.zero emptyFs).1
        = .ok (.PATH, .npath "a\n")
    ∧ specClassifyKindC1 Flags.zero (.str "a\n") = .ok .JSON_STR := by
  constructor
  · decide
  · decide

/-- Claim C1 as amended: for every non-null source and every flag set
under which the safe path policy applies (Safe set, or Safe and FsProbe
both unset), classification returns exactly the result of the amended
eight-step rule list: ForceIsJson gives JsonText for textual sources
(and raises otherwise), ForceIsPath gives Path for textual or path-like
sources (and raises otherwise), the `http(s)://` prefix gives Url, the
safe heuristic — applied to the normalized path string, with the
allow-list test also accepting a single trailing newline — gives Path,
byte sequences give Bytes, readable values give Stream, and anything
else gives JsonText via coercion. -/
theorem C1_safe_policy_classification (src : SourceValue) (flags : Flags) (fs : Fs)
    (hsrc : src ≠ .none)
    (hpol : flags.safe = true ∨ (flags.safe = false ∧ flags.fsProbe = false)) :
    (SourceClassifier.classify_source src flags fs).1 = amendedClassifyC1 flags src := by
  have hheur := isPathHeuristic_safePolicy flags fs
  cases src with
  | none => exact absurd rfl hsrc
  | str s =>
    by_cases hj : flags.isJson
    · simp [SourceClassifier.classify_source, classifyCore, amendedClassifyC1, hj]
    · by_cases hp : flags.isPath
      · simp [SourceClassifier.classify_source, classifyCore, amendedClassifyC1,
          asPathStr, hj, hp]
      · by_cases hu : isUrlStr s
        · simp [SourceClassifier.classify_source, classifyCore, amendedClassifyC1,
            hj, hp, hu]
        · by_cases hh : amendedSafeHeuristicC1 (pathStr s) <;>
            simp [SourceClassifier.classify_source, classifyCore, amendedClassifyC1,
              hj, hp, hu, hheur _ hpol, safeIsPath_eq_amendedC1, hh]
  | path p =>
    by_cases hj : flags.isJson
    · simp [SourceClassifier.classify_source, classifyCore, amendedClassifyC1, hj]
    · by_cases hp : flags.isPath
      · simp [SourceClassifier.classify_source, classifyCore, amendedClassifyC1,
          asPathStr, hj, hp]
      · by_cases hh : amendedSafeHeuristicC1 (pathStr p) <;>
          simp [SourceClassifier.classify_source, classifyCore, amendedClassifyC1,
            hj, hp, hheur _ hpol, safeIsPath_eq_amendedC1, hh]
  | bytes bs =>
    by_cases hj : flags.isJson <;> by_cases hp : flags.isPath <;>
      simp [SourceClassifier.classify_source, classifyCore, amendedClassifyC1,
        asPathStr, hj, hp]
  | stream d =>
    by_cases hj : flags.isJson <;> by_cases hp : flags.isPath <;>
      simp [SourceClassifier.classify_source, classifyCore, amendedClassifyC1,
        asPathStr, hj, hp]
  | obj r =>
    by_cases hj : flags.isJson <;> by_cases hp : flags.isPath <;>
      cases r <;>
        simp [SourceClassifier.classify_source, classifyCore, amendedClassifyC1,
          asPathStr, hj, hp]

theorem C1_witness :
    (SourceClassifier.classify_source (.str "data.json") Flags.zero emptyFs).1
      = amendedClassifyC1 Flags.zero (.str "data.json") :=
  C1_safe_policy_classification (.str "data.json") Flags.zero emptyFs
    (by decide) (Or.inr ⟨rfl, rfl⟩)

/-- Claim C4 (corrected), counterexample: classifying a byte sequence
with ForceIsPath set raises — `Path(source)` rejects a non-`str`,
non-`PathLike` argument with a `TypeError` — where the claim says it
does not raise. -/
theorem C4_counterexample :
    (SourceClassifier.classify_source (.bytes [123, 34, 97]) flagsIsPathOnly emptyFs).1
      = .error .pathTypeError := rfl

/-- Claim C4 as amended: for every flag set, source and filesystem,
classification raises exactly in these situations — a null source, a
non-textual source with ForceIsJson set, a source with ForceIsPath set
that is neither textual nor path-like (the `Path(source)` `TypeError`),
and the case-8 coercion failure. -/
theorem C4_classification_raises_iff (flags : Flags) (src : SourceValue) (fs : Fs) :
    exceptIsOk (SourceClassifier.classify_source src flags fs).1 = false ↔
      (src = .none
        ∨ (src ≠ .none ∧ flags.isJson = true ∧ textual src = false)
        ∨ (src ≠ .none ∧ flags.isJson = false ∧ flags.isPath = true
            ∧ asPathStr src = Option.none)
        ∨ (flags.isJson = false ∧ flags.isPath = false ∧ src = .obj Option.none)) := by
  cases src with
  | none =>
    simp [SourceClassifier.classify_source, classifyCore, exceptIsOk]
  | str s =>
    by_cases hj : flags.isJson
    · simp [SourceClassifier.classify_source, classifyCore, exceptIsOk, textual, hj]
    · by_cases hp : flags.isPath
      · simp [SourceClassifier.classify_source, classifyCore, exceptIsOk, asPathStr, hj, hp]
      · by_cases hu : isUrlStr s
        · simp [SourceClassifier.classify_source, classifyCore, exceptIsOk, hj, hp, hu]
        · by_cases hh : (isPathHeuristic flags fs (pathStr s)).1 <;>
            simp [SourceClassifier.classify_source, classifyCore, exceptIsOk, hj, hp, hu, hh]
  | path p =>
    by_cases hj : flags.isJson
    · simp [SourceClassifier.classify_source, classifyCore, exceptIsOk, textual, hj]
    · by_cases hp : flags.isPath
      · simp [SourceClassifier.classify_source, classifyCore, exceptIsOk, asPathStr, hj, hp]
      · by_cases hh : (isPathHeuristic flags fs (pathStr p)).1 <;>
          simp [SourceClassifier.classify_source, classifyCore, exceptIsOk, hj, hp, hh]
  | bytes bs =>
    by_cases hj : flags.isJson <;> by_cases hp : flags.isPath <;>
      simp [SourceClassifier.classify_source, classifyCore, exceptIsOk, textual,
        asPathStr, hj, hp]
  | stream d =>
    by_cases hj : flags.isJson <;> by_cases hp : flags.isPath <;>
      simp [SourceClassifier.classify_source, classifyCore, exceptIsOk, textual,
        asPathStr, hj, hp]
  | obj r =>
    by_cases hj : flags.isJson <;> by_cases hp : flags.isPath <;>
      cases r <;>
        simp [SourceClassifier.classify_source, classifyCore, exceptIsOk, textual,
          asPathStr, hj, hp]

/-- Claim C7 (confirmed): under the probing policy (Safe unset, FsProbe
set), for every candidate textual value reaching the heuristic, a
successful probe classifies it as Path and leaves the probed path
absent with every other path untouched, and a failed probe is
swallowed: the value falls through to JsonText, nothing is raised, and
the filesystem is unchanged. -/
theorem C7_probe_frame (s : String) (flags : Flags) (fs : Fs)
    (hsafe : flags.safe = false) (hprobe : flags.fsProbe = true)
    (hj : flags.isJson = false) (hp : flags.isPath = false)
    (hurl : isUrlStr s = false) :
    ((probe fs (pathStr s)).1 = true →
      (SourceClassifier.classify_source (.str s) flags fs).1 = .ok (.PATH, .npath (pathStr s))
      ∧ (SourceClassifier.classify_source (.str s) flags fs).2 (pathStr s) = .absent
      ∧ ∀ q, q ≠ pathStr s → (SourceClassifier.classify_source (.str s) flags fs).2 q = fs q)
    ∧ ((probe fs (pathStr s)).1 = false →
      (SourceClassifier.classify_source (.str s) flags fs).1 = .ok (.JSON_STR, .nstr s)
      ∧ (SourceClassifier.classify_source (.str s) flags fs).2 = fs) := by
  simp only [SourceClassifier.classify_source, classifyCore, isPathHeuristic,
    hsafe, hprobe, hj, hp, hurl, Bool.false_eq_true, if_false, if_true, reduceCtorEq,
    reduceIte]
  rcases hfs : fs (pathStr s) with _ | c | _ | _ <;>
    simp [probe, hfs, Fs.update] <;> intro q hq <;> simp [hq, hfs]

theorem C7_witness :
    (SourceClassifier.classify_source (.str "w.json") flagsProbeOnly emptyFs).1
        = .ok (.PATH, .npath "w.json")
    ∧ (SourceClassifier.classify_source (.str "w.json") flagsProbeOnly emptyFs).2 "w.json"
        = .absent := by
  have h := (C7_probe_frame "w.json" flagsProbeOnly emptyFs rfl rfl rfl rfl (by decide)).1 rfl
  exact ⟨h.1, h.2.1⟩

/-- Claim C9 (confirmed): under the probing policy, a textual value
naming an existing regular file is classified Path, but the probe's
touch-then-unlink deletes the pre-existing file, so opening the
classified path afterwards fails with `FileNotFoundError`. -/
theorem C9_probe_deletes_existing (s content : String) (flags : Flags) (fs : Fs)
    (hsafe : flags.safe = false) (hprobe : flags.fsProbe = true)
    (hj : flags.isJson = false) (hp : flags.isPath = false)
    (hurl : isUrlStr s = false)
    (hfile : fs (pathStr s) = .file content) :
    (SourceClassifier.classify_source (.str s) flags fs).1 = .ok (.PATH, .npath (pathStr s))
    ∧ (SourceClassifier.classify_source (.str s) flags fs).2 (pathStr s) = .absent
    ∧ (openPath ((SourceClassifier.classify_source (.str s) flags fs).2) "json" (pathStr s)).1
        = .error (.fileNotFound (pathStr s)) := by
  simp only [SourceClassifier.classify_source, classifyCore, isPathHeuristic,
    hsafe, hprobe, hj, hp, hurl, Bool.false_eq_true, if_false, if_true, reduceCtorEq,
    reduceIte]
  simp [probe, hfile, Fs.update, openPath]

/-- Claim C5 (corrected), counterexample: with a null source and both
force flags set, `read` fails with the null-source `ValueError` — the
`source is None` check runs first — not with the mutual-exclusion
configuration error the claim promises for every source. -/
theorem C5_counterexample :
    (JsonIOReader.read (mkReader Flags.zero "json") .none flagsBoth defaultDecoderCls
        Option.none env0 emptyFs).1 = .error (.config .noneSourceRead)
    ∧ (Except.error (ReadErr.config .noneSourceRead) : Except ReadErr Json)
        ≠ .error (.config .bothFlags) := by
  exact ⟨rfl, by simp⟩

/-- Claim C5 as amended: for every non-null source (and any decoder
argument, validator, environment and filesystem), a read whose flags
set both ForceIsJson and ForceIsPath fails with the mutual-exclusion
configuration error, before classification runs: no I/O event is
emitted and the filesystem is untouched.  A null source instead fails
the null-source check, which runs first. -/
theorem C5_both_flags_config_error (r : Reader) (src : SourceValue) (flags : Flags)
    (dc : DecoderArg) (v : Option (Json → Option PyErr)) (env : Env) (fs : Fs)
    (hsrc : src ≠ .none) (hj : flags.isJson = true) (hp : flags.isPath = true) :
    JsonIOReader.read r src flags dc v env fs = (.error (.config .bothFlags), [], fs) := by
  simp [JsonIOReader.read, hsrc, hj, hp]

theorem C5_witness :
    JsonIOReader.read (mkReader Flags.zero "json") (.str "x") flagsBoth defaultDecoderCls
        Option.none env0 emptyFs = (.error (.config .bothFlags), [], emptyFs) :=
  C5_both_flags_config_error (mkReader Flags.zero "json") (.str "x") flagsBoth
    defaultDecoderCls Option.none env0 emptyFs (by simp) rfl rfl

/-- Claim C6 (corrected), counterexample: a read of an existing file
with the default decoder argument fails the pluggable-capability check
only after the file has been opened (the `fsOpen` event is recorded),
and the failure surfaces wrapped as a `ParsingFailure`, not as a
pre-I/O `UnsupportedOption` error. -/
theorem C6_counterexample :
    (JsonIOReader.read (mkReader Flags.zero "json") (.str "a.json") Flags.zero
        defaultDecoderCls Option.none env0 (Fs.update emptyFs "a.json" (.file "[]"))).1
      = .error (.parsing .decoderNotSupported)
    ∧ (JsonIOReader.read (mkReader Flags.zero "json") (.str "a.json") Flags.zero
        defaultDecoderCls Option.none env0 (Fs.update emptyFs "a.json" (.file "[]"))).2.1
      = [.fsOpen "a.json"] :=
  ⟨rfl, rfl⟩

/-- Claim C6 as amended: when a supplied decoder class (the default
supplies one) meets a backend lacking the pluggable-decode capability,
the check runs only after classification and opening succeed — the
events of the open have already happened — and the resulting `TypeError`
surfaces wrapped as `ParsingFailure`, not as a pre-I/O error. -/
theorem C6_pluggable_check_after_open (r : Reader) (src : SourceValue) (flags : Flags)
    (v : Option (Json → Option PyErr)) (env : Env) (fs fs' : Fs)
    (st : SourceType) (n : Norm) (content : String) (evs : List Event)
    (hsrc : src ≠ .none) (hfl : (flags.isJson && flags.isPath) = false)
    (hcap : lacksPluggable r = true)
    (hclass : classifyCore flags r.flags src fs = (.ok (st, n), fs'))
    (hopen : openSrc env fs' r.backendName st n = (.ok content, evs)) :
    JsonIOReader.read r src flags (.cls true) v env fs
      = (.error (.parsing .decoderNotSupported), evs, fs') := by
  unfold lacksPluggable at hcap
  rcases hb : r.backendInstance with _ | c
  · simp [JsonIOReader.read, hsrc, hfl, hclass, hopen, Reader.backend, hb]
  · rw [hb] at hcap
    simp only [Bool.not_eq_true'] at hcap
    simp [JsonIOReader.read, hsrc, hfl, hclass, hopen, Reader.backend, hb, hcap]

theorem C6_witness :
    JsonIOReader.read (mkReader Flags.zero "json") (.str "a.json") Flags.zero (.cls true)
        Option.none env0 (Fs.update emptyFs "a.json" (.file "[]"))
      = (.error (.parsing .decoderNotSupported), [.fsOpen "a.json"],
          Fs.update emptyFs "a.json" (.file "[]")) :=
  C6_pluggable_check_after_open (mkReader Flags.zero "json") (.str "a.json") Flags.zero
    Option.none env0 (Fs.update emptyFs "a.json" (.file "[]"))
    (Fs.update emptyFs "a.json" (.file "[]")) .PATH (.npath "a.json") "[]"
    [.fsOpen "a.json"] (by simp) rfl rfl rfl rfl

/-- Claim C10 (corrected), counterexample: a read on a
default-constructed reader over the baseline backend that reaches the
decode step fails with the wrapped capability `TypeError` — not with the
unexpected-`cls`-keyword `TypeError` that the claimed forwarding into
`JsonBackend.load` would produce — because the pre-set `None` instance
cache makes the pluggable check fail before any forwarding. -/
theorem C10_counterexample :
    (JsonIOReader.read (mkReader Flags.zero "json") (.str "[]") Flags.zero
        defaultDecoderCls Option.none env0 emptyFs).1
      = .error (.parsing .decoderNotSupported)
    ∧ (Except.error (ReadErr.parsing .decoderNotSupported) : Except ReadErr Json)
        ≠ .error (.parsing .unexpectedKwargCls) := by
  exact ⟨rfl, by simp⟩

/-- Claim C10 as amended: the decoder argument defaults to the
`JSONDecoder` class rather than to absent, so the pluggable-capability
check runs on every read that reaches the decode step; because
`__init__` pre-sets the instance cache to `None` and the `backend`
property only fills a missing attribute, the check always fails there
(before any `cls` forwarding, whose target `JsonBackend.load` indeed
has no `cls` parameter), the failure surfaces wrapped as
`ParsingFailure`, and a read on a default-constructed reader never
returns a decoded value — for any source, flags, decoder argument,
validator, environment and filesystem. -/
theorem C10_default_read_never_ok (fl : Flags) (nm : String) (src : SourceValue)
    (flags : Flags) (dc : DecoderArg) (v : Option (Json → Option PyErr))
    (env : Env) (fs : Fs) :
    exceptIsOk (JsonIOReader.read (mkReader fl nm) src flags dc v env fs).1 = false := by
  unfold JsonIOReader.read
  split
  · rfl
  split
  · rfl
  split
  · rfl
  · rfl
  · split
    · rfl
    · split
      · rfl
      · rfl

/-- Claim C3 (corrected), counterexample: on a reader whose instance
cache holds a pluggable codec (the state the lazy property is meant to
produce), a failure raised by the caller-supplied validator does not
propagate unmodified — it surfaces wrapped as `ParsingFailure`, because
`validate(result)` sits inside the orchestrator's catch-all. -/
theorem C3_counterexample :
    (JsonIOReader.read ⟨Flags.zero, "json", some ⟨true, true, fun _ => .ok .null⟩⟩
        (.str "[]") Flags.zero (.cls true)
        (some (fun _ => some (.validatorError 7))) env0 emptyFs).1
      = .error (.parsing (.validatorError 7)) :=
  rfl

/-- Claim C3 as amended: for every read that passes the pre-I/O checks,
every failure raised by classification, opening, decoding — or by the
caller-supplied validator — is caught at the orchestrator boundary and
re-wrapped into a single `ParsingFailure` carrying the original cause;
validator failures are not exempt. -/
theorem C3_failures_wrapped (r : Reader) (src : SourceValue) (flags : Flags)
    (v : Option (Json → Option PyErr)) (env : Env) (fs : Fs) (e : PyErr)
    (hsrc : src ≠ .none) (hfl : (flags.isJson && flags.isPath) = false) :
    ((classifyCore flags r.flags src fs).1 = .error e →
      (JsonIOReader.read r src flags (.cls true) v env fs).1 = .error (.parsing e))
    ∧ (∀ st n fs' evs, classifyCore flags r.flags src fs = (.ok (st, n), fs') →
        openSrc env fs' r.backendName st n = (.error e, evs) →
        (JsonIOReader.read r src flags (.cls true) v env fs).1 = .error (.parsing e))
    ∧ (∀ st n fs' content evs c, classifyCore flags r.flags src fs = (.ok (st, n), fs') →
        openSrc env fs' r.backendName st n = (.ok content, evs) →
        r.backendInstance = some c → c.hasLoadLoads = true → c.acceptsCls = true →
        c.decode content = .error e →
        (JsonIOReader.read r src flags (.cls true) v env fs).1 = .error (.parsing e))
    ∧ (∀ st n fs' content evs c res vf, classifyCore flags r.flags src fs = (.ok (st, n), fs') →
        openSrc env fs' r.backendName st n = (.ok content, evs) →
        r.backendInstance = some c → c.hasLoadLoads = true → c.acceptsCls = true →
        c.decode content = .ok res → v = some vf → vf res = some e →
        (JsonIOReader.read r src flags (.cls true) v env fs).1 = .error (.parsing e)) := by
  refine ⟨?_, ?_, ?_, ?_⟩
  · intro hc
    rcases hpair : classifyCore flags r.flags src fs with ⟨res, fs2⟩
    rw [hpair] at hc
    simp at hc
    subst hc
    simp [JsonIOReader.read, hsrc, hfl, hpair]
  · intro st n fs' evs hclass hopen
    simp [JsonIOReader.read, hsrc, hfl, hclass, hopen]
  · intro st n fs' content evs c hclass hopen hb hll hcls hdec
    simp [JsonIOReader.read, hsrc, hfl, hclass, hopen, Reader.backend, hb, hll, hcls, hdec]
  · intro st n fs' content evs c res vf hclass hopen hb hll hcls hdec hv hvr
    simp [JsonIOReader.read, hsrc, hfl, hclass, hopen, Reader.backend, hb, hll, hcls,
      hdec, hv, hvr]

theorem C3_witness :
    (JsonIOReader.read (mkReader Flags.zero "json") (.obj Option.none) Flags.zero (.cls true)
        Option.none env0 emptyFs).1 = .error (.parsing .coercionError) :=
  (C3_failures_wrapped (mkReader Flags.zero "json") (.obj Option.none) Flags.zero
      Option.none env0 emptyFs .coercionError (by simp) rfl).1 rfl

/-- Claim C2 (corrected), counterexample: with `runtimeInstall=true`
and `safeMode=false`, an unavailable backend whose install completes
but whose retried import still fails makes the resolver fall back to
the baseline codec — the events show the install and the single retry —
instead of being fatal "regardless of Safe" as the claim states. -/
theorem C2_counterexample :
    (BackendResolver.resolve_backend ⟨false, true, some "orjson", Option.none⟩
        ⟨fun _ => false, fun _ => true, fun _ => false⟩).1
      = .ok (jsonBackendCodec, BackendId.json.value)
    ∧ (BackendResolver.resolve_backend ⟨false, true, some "orjson", Option.none⟩
        ⟨fun _ => false, fun _ => true, fun _ => false⟩).2
      = [.importAttempt .orjson, .installAttempt .orjson, .importAttempt .orjson] :=
  ⟨rfl, rfl⟩

/-- Claim C2 as amended: when a registered backend named in the config
fails to import, then — with RuntimeInstall set and a working installer
— the installer is invoked and the import retried exactly once, and a
second failure raises `ImportError` out of the loader, which is fatal
only when safe mode is set: otherwise the resolver falls back to the
baseline Json codec; without RuntimeInstall, safe mode propagates the
failure and non-safe mode returns the baseline codec without raising. -/
theorem C2_resolution_on_load_failure (cfg : ReaderConfig) (env : PkgEnv)
    (n : String) (b : BackendId)
    (hn : cfg.backendName = some n) (hc : cfg.backendClass = Option.none)
    (hb : backendFromName n = some b) (hreg : registeredClass b = true)
    (himp : env.importOk b = false) :
    (cfg.runtimeInstall = true → installerRegistered b = true → env.installRuns b = true →
       env.importAfterInstall b = false →
       (BackendResolver.resolve_backend cfg env).2
           = [.importAttempt b, .installAttempt b, .importAttempt b]
       ∧ (cfg.safeMode = true →
            (BackendResolver.resolve_backend cfg env).1 = .error (.importError b.value))
       ∧ (cfg.safeMode = false →
            (BackendResolver.resolve_backend cfg env).1
              = .ok (jsonBackendCodec, BackendId.json.value)))
    ∧ (cfg.runtimeInstall = false → cfg.safeMode = true →
        (BackendResolver.resolve_backend cfg env).1 = .error (.importError b.value))
    ∧ (cfg.runtimeInstall = false → cfg.safeMode = false →
        (BackendResolver.resolve_backend cfg env).1
            = .ok (jsonBackendCodec, BackendId.json.value)
        ∧ (BackendResolver.resolve_backend cfg env).2 = [.importAttempt b]) := by
  rcases cfg with ⟨sm, ri, bn, bc⟩
  simp only at hn hc
  subst hn
  subst hc
  refine ⟨?_, ?_, ?_⟩
  · intro hri hinst hrun hretry
    subst hri
    simp [BackendResolver.resolve_backend, load_backend, ReaderConfig.resolverFlags,
      hb, hreg, himp, hinst, hrun, hretry]
    cases sm <;> simp
  · intro hri hsm
    subst hri
    subst hsm
    simp [BackendResolver.resolve_backend, load_backend, ReaderConfig.resolverFlags,
      hb, hreg, himp]
  · intro hri hsm
    subst hri
    subst hsm
    simp [BackendResolver.resolve_backend, load_backend, ReaderConfig.resolverFlags,
      hb, hreg, himp]

theorem C2_witness :
    (BackendResolver.resolve_backend ⟨false, false, some "orjson", Option.none⟩
        ⟨fun _ => false, fun _ => true, fun _ => false⟩).1
      = .ok (jsonBackendCodec, BackendId.json.value)
    ∧ (BackendResolver.resolve_backend ⟨false, false, some "orjson", Option.none⟩
        ⟨fun _ => false, fun _ => true, fun _ => false⟩).2
      = [.importAttempt .orjson] :=
  (C2_resolution_on_load_failure ⟨false, false, some "orjson", Option.none⟩
      ⟨fun _ => false, fun _ => true, fun _ => false⟩ "orjson" .orjson
      rfl rfl rfl rfl rfl).2.2 rfl rfl

/-! ### Round-trip machinery for the baseline codec (claim C8) -/

theorem char_toNat_lt (c : Char) : c.toNat < 1114112 := by
  have h := c.valid
  rcases h with h | ⟨h1, h2⟩ <;> simp [Char.toNat] <;> omega

theorem char_not_surrogate (c : Char) : ¬(55296 ≤ c.toNat ∧ c.toNat < 57344) := by
  have h := c.valid
  rcases h with h | ⟨h1, h2⟩ <;> simp [Char.toNat] <;> omega

theorem isDigit_toNat (c : Char) (h : c.isDigit = true) : 48 ≤ c.toNat ∧ c.toNat ≤ 57 := by
  simp [Char.isDigit] at h
  exact h

theorem digit_ne (c x : Char) (hd : c.isDigit = true) (hx : x.isDigit = false) : c ≠ x := by
  intro h
  subst h
  rw [hd] at hx
  cases hx

theorem hexVal_hexDigit (d : Nat) (h : d < 16) : hexVal (hexDigit d) = some d := by
  interval_cases d <;> rfl

theorem parseHex4_hex4 (n : Nat) (h : n < 65536) (rest : List Char) :
    parseHex4 (hex4 n ++ rest) = some (n, rest) := by
  have h3 : n / 4096 % 16 < 16 := Nat.mod_lt _ (by norm_num)
  have h2 : n / 256 % 16 < 16 := Nat.mod_lt _ (by norm_num)
  have h1 : n / 16 % 16 < 16 := Nat.mod_lt _ (by norm_num)
  have h0 : n % 16 < 16 := Nat.mod_lt _ (by norm_num)
  simp only [hex4, List.cons_append, List.nil_append, parseHex4,
    hexVal_hexDigit _ h3, hexVal_hexDigit _ h2, hexVal_hexDigit _ h1, hexVal_hexDigit _ h0]
  have harith : n / 4096 % 16 * 4096 + n / 256 % 16 * 256 + n / 16 % 16 * 16 + n % 16 = n := by
    omega
  rw [harith]

theorem escBody_cons (c : Char) (l : List Char) :
    escBody (c :: l) = escapeChar c ++ escBody l := by
  simp [escBody]

theorem escapeChar_length_pos (c : Char) : 1 ≤ (escapeChar c).length := by
  unfold escapeChar
  split_ifs <;> simp

theorem escBody_length (l : List Char) : l.length ≤ (escBody l).length := by
  induction l with
  | nil => simp [escBody]
  | cons c l ih =>
    rw [escBody_cons, List.length_append, List.length_cons]
    have := escapeChar_length_pos c
    omega

theorem psbQuote (f : Nat) (cs : List Char) : parseStrBody (f+1) ('"'::cs) = some ([], cs) := rfl

theorem psbEscQ (f : Nat) (cs : List Char) :
    parseStrBody (f+1) ('\\':: '"'::cs) = (parseStrBody f cs).map (fun r => ('"'::r.1, r.2)) := rfl

theorem psbEscBs (f : Nat) (cs : List Char) :
    parseStrBody (f+1) ('\\':: '\\'::cs) = (parseStrBody f cs).map (fun r => ('\\'::r.1, r.2)) := rfl

theorem psbEscLb (f : Nat) (cs : List Char) :
    parseStrBody (f+1) ('\\':: 'b'::cs)
      = (parseStrBody f cs).map (fun r => (Char.ofNat 8 :: r.1, r.2)) := rfl

theorem psbEscLf (f : Nat) (cs : List Char) :
    parseStrBody (f+1) ('\\':: 'f'::cs)
      = (parseStrBody f cs).map (fun r => (Char.ofNat 12 :: r.1, r.2)) := rfl

theorem psbEscLn (f : Nat) (cs : List Char) :
    parseStrBody (f+1) ('\\':: 'n'::cs) = (parseStrBody f cs).map (fun r => ('\n'::r.1, r.2)) := rfl

theorem psbEscLr (f : Nat) (cs : List Char) :
    parseStrBody (f+1) ('\\':: 'r'::cs)
      = (parseStrBody f cs).map (fun r => (Char.ofNat 13 :: r.1, r.2)) := rfl

theorem psbEscLt (f : Nat) (cs : List Char) :
    parseStrBody (f+1) ('\\':: 't'::cs) = (parseStrBody f cs).map (fun r => ('\t'::r.1, r.2)) := rfl

theorem psbEscU (f : Nat) (cs : List Char) :
    parseStrBody (f+1) ('\\':: 'u'::cs)
      = match parseUEscape cs with
        | some (d, cs2) => (parseStrBody f cs2).map (fun r => (d :: r.1, r.2))
        | Option.none => Option.none := rfl

theorem psbPlain (f : Nat) (c : Char) (cs : List Char)
    (h1 : ¬(c = '"')) (h2 : ¬(c = '\\')) (h3 : ¬(c.toNat < 32)) :
    parseStrBody (f+1) (c::cs) = (parseStrBody f cs).map (fun r => (c :: r.1, r.2)) := by
  rw [parseStrBody.eq_def]
  simp only [if_neg h1, if_neg h2, if_neg h3]

theorem parseUEscape_bmp (n : Nat) (h : n < 65536)
    (hA : ¬(55296 ≤ n ∧ n < 56320)) (hB : ¬(56320 ≤ n ∧ n < 57344)) (rest : List Char) :
    parseUEscape (hex4 n ++ rest) = some (Char.ofNat n, rest) := by
  simp only [parseUEscape, parseHex4_hex4 _ h, if_neg hA, if_neg hB]

theorem parseUEscape_pair (m k : Nat) (hm : m < 65536) (hs : 55296 ≤ m ∧ m < 56320)
    (hk : k < 65536) (hks : 56320 ≤ k ∧ k < 57344) (rest : List Char) :
    parseUEscape (hex4 m ++ '\\' :: 'u' :: (hex4 k ++ rest))
      = some (Char.ofNat (65536 + (m - 55296) * 1024 + (k - 56320)), rest) := by
  simp only [parseUEscape, parseHex4_hex4 _ hm, if_pos hs]
  simp only [parseHex4_hex4 _ hk, if_pos hks]

theorem parseUEscape_astral (n : Nat) (h1 : 65536 ≤ n) (h2 : n < 1114112) (rest : List Char) :
    parseUEscape (hex4 (55296 + (n - 65536) / 1024)
        ++ '\\' :: 'u' :: (hex4 (56320 + (n - 65536) % 1024) ++ rest))
      = some (Char.ofNat n, rest) := by
  have e1 : 55296 + (n - 65536) / 1024 < 65536 := by omega
  have e2 : 55296 ≤ 55296 + (n - 65536) / 1024 ∧ 55296 + (n - 65536) / 1024 < 56320 := by
    omega
  have e3 : 56320 + (n - 65536) % 1024 < 65536 := by omega
  have e4 : 56320 ≤ 56320 + (n - 65536) % 1024 ∧ 56320 + (n - 65536) % 1024 < 57344 := by
    omega
  rw [parseUEscape_pair _ _ e1 e2 e3 e4]
  have harith : 65536 + (55296 + (n - 65536) / 1024 - 55296) * 1024
      + (56320 + (n - 65536) % 1024 - 56320) = n := by omega
  rw [harith]

theorem psbEscU_some (f : Nat) (cs cs2 : List Char) (d : Char)
    (h : parseUEscape cs = some (d, cs2)) :
    parseStrBody (f+1) ('\\':: 'u'::cs)
      = (parseStrBody f cs2).map (fun r => (d :: r.1, r.2)) := by
  rw [psbEscU, h]

theorem parseStrBody_escBody (l : List Char) (rest : List Char) :
    ∀ f, l.length < f → parseStrBody f (escBody l ++ '"' :: rest) = some (l, rest) := by
  induction l with
  | nil =>
    intro f hf
    cases f with
    | zero => omega
    | succ f =>
      rw [show escBody [] = [] from rfl, List.nil_append, psbQuote]
  | cons c l' ih =>
    intro f hf
    cases f with
    | zero => simp at hf
    | succ f =>
    have hf' : l'.length < f := by simp at hf; omega
    have ihf := ih f hf'
    rw [escBody_cons, List.append_assoc]
    by_cases h1 : c = '"'
    · subst h1
      rw [show escapeChar '"' = ['\\', '"'] from rfl]
      rw [show (['\\', '"'] : List Char) ++ (escBody l' ++ '"' :: rest)
          = '\\' :: '"' :: (escBody l' ++ '"' :: rest) from rfl]
      rw [psbEscQ, ihf]
      rfl
    · by_cases h2 : c = '\\'
      · subst h2
        rw [show escapeChar '\\' = ['\\', '\\'] from rfl]
        rw [show (['\\', '\\'] : List Char) ++ (escBody l' ++ '"' :: rest)
            = '\\' :: '\\' :: (escBody l' ++ '"' :: rest) from rfl]
        rw [psbEscBs, ihf]
        rfl
      · by_cases h3 : c.toNat = 8
        · have hc : Char.ofNat 8 = c := by rw [← h3, Char.ofNat_toNat]
          rw [show escapeChar c = ['\\', 'b'] from by
            simp only [escapeChar, if_neg h1, if_neg h2, if_pos h3]]
          rw [show (['\\', 'b'] : List Char) ++ (escBody l' ++ '"' :: rest)
              = '\\' :: 'b' :: (escBody l' ++ '"' :: rest) from rfl]
          rw [psbEscLb, ihf, hc]
          rfl
        · by_cases h4 : c.toNat = 12
          · have hc : Char.ofNat 12 = c := by rw [← h4, Char.ofNat_toNat]
            rw [show escapeChar c = ['\\', 'f'] from by
              simp only [escapeChar, if_neg h1, if_neg h2, if_neg h3, if_pos h4]]
            rw [show (['\\', 'f'] : List Char) ++ (escBody l' ++ '"' :: rest)
                = '\\' :: 'f' :: (escBody l' ++ '"' :: rest) from rfl]
            rw [psbEscLf, ihf, hc]
            rfl
          · by_cases h5 : c = '\n'
            · subst h5
              rw [show escapeChar '\n' = ['\\', 'n'] from rfl]
              rw [show (['\\', 'n'] : List Char) ++ (escBody l' ++ '"' :: rest)
                  = '\\' :: 'n' :: (escBody l' ++ '"' :: rest) from rfl]
              rw [psbEscLn, ihf]
              rfl
            · by_cases h6 : c.toNat = 13
              · have hc : Char.ofNat 13 = c := by rw [← h6, Char.ofNat_toNat]
                rw [show escapeChar c = ['\\', 'r'] from by
                  simp only [escapeChar, if_neg h1, if_neg h2, if_neg h3, if_neg h4,
                    if_neg h5, if_pos h6]]
                rw [show (['\\', 'r'] : List Char) ++ (escBody l' ++ '"' :: rest)
                    = '\\' :: 'r' :: (escBody l' ++ '"' :: rest) from rfl]
                rw [psbEscLr, ihf, hc]
                rfl
              · by_cases h7 : c = '\t'
                · subst h7
                  rw [show escapeChar '\t' = ['\\', 't'] from rfl]
                  rw [show (['\\', 't'] : List Char) ++ (escBody l' ++ '"' :: rest)
                      = '\\' :: 't' :: (escBody l' ++ '"' :: rest) from rfl]
                  rw [psbEscLt, ihf]
                  rfl
                · by_cases h8 : 32 ≤ c.toNat ∧ c.toNat ≤ 126
                  · have h32 : ¬(c.toNat < 32) := by omega
                    rw [show escapeChar c = [c] from by
                      simp only [escapeChar, if_neg h1, if_neg h2, if_neg h3, if_neg h4,
                        if_neg h5, if_neg h6, if_neg h7, if_pos h8]]
                    rw [List.singleton_append, psbPlain f c _ h1 h2 h32, ihf]
                    rfl
                  · by_cases h9 : c.toNat < 65536
                    · have hs := char_not_surrogate c
                      have hA : ¬(55296 ≤ c.toNat ∧ c.toNat < 56320) := by
                        intro hx
                        exact hs ⟨hx.1, by omega⟩
                      have hB : ¬(56320 ≤ c.toNat ∧ c.toNat < 57344) := by
                        intro hx
                        exact hs ⟨by omega, hx.2⟩
                      rw [show escapeChar c = '\\' :: 'u' :: hex4 c.toNat from by
                        simp only [escapeChar, if_neg h1, if_neg h2, if_neg h3, if_neg h4,
                          if_neg h5, if_neg h6, if_neg h7, if_neg h8, if_pos h9]]
                      rw [show ('\\' :: 'u' :: hex4 c.toNat) ++ (escBody l' ++ '"' :: rest)
                          = '\\' :: 'u' :: (hex4 c.toNat ++ (escBody l' ++ '"' :: rest)) from by
                        simp]
                      rw [psbEscU_some f _ _ _ (parseUEscape_bmp c.toNat h9 hA hB _), ihf,
                        Char.ofNat_toNat]
                      rfl
                    · have hub := char_toNat_lt c
                      have hlb : 65536 ≤ c.toNat := by omega
                      rw [show escapeChar c
                          = ('\\' :: 'u' :: hex4 (55296 + (c.toNat - 65536) / 1024))
                            ++ ('\\' :: 'u' :: hex4 (56320 + (c.toNat - 65536) % 1024)) from by
                        simp only [escapeChar, if_neg h1, if_neg h2, if_neg h3, if_neg h4,
                          if_neg h5, if_neg h6, if_neg h7, if_neg h8, if_neg h9]]
                      rw [show (('\\' :: 'u' :: hex4 (55296 + (c.toNat - 65536) / 1024))
                            ++ ('\\' :: 'u' :: hex4 (56320 + (c.toNat - 65536) % 1024)))
                            ++ (escBody l' ++ '"' :: rest)
                          = '\\' :: 'u' :: (hex4 (55296 + (c.toNat - 65536) / 1024)
                            ++ '\\' :: 'u' :: (hex4 (56320 + (c.toNat - 65536) % 1024)
                              ++ (escBody l' ++ '"' :: rest))) from by simp]
                      rw [psbEscU_some f _ _ _ (parseUEscape_astral c.toNat hlb hub _), ihf,
                        Char.ofNat_toNat]
                      rfl

theorem digitChar_toNat (d : Nat) (h : d < 10) : (digitChar d).toNat = 48 + d := by
  interval_cases d <;> rfl

theorem digitChar_isDigit (d : Nat) (h : d < 10) : (digitChar d).isDigit = true := by
  interval_cases d <;> rfl

theorem digitChar_ne_zero (d : Nat) (h1 : 1 ≤ d) (h2 : d < 10) : digitChar d ≠ '0' := by
  interval_cases d <;> decide

theorem natDigs_all_digits (n : Nat) : ∀ c ∈ natDigs n, c.isDigit = true := by
  induction n using Nat.strong_induction_on with
  | _ n ih =>
    match n with
    | 0 => simp [natDigs]
    | m+1 =>
      intro c hc
      rw [natDigs] at hc
      rw [List.mem_append] at hc
      rcases hc with hc | hc
      · exact ih ((m+1) / 10) (Nat.div_lt_self (Nat.succ_pos m) (by decide)) c hc
      · rw [List.mem_singleton] at hc
        subst hc
        exact digitChar_isDigit _ (Nat.mod_lt _ (by decide))

theorem charsToNat_append_singleton (l : List Char) (c : Char) :
    charsToNat (l ++ [c]) = 10 * charsToNat l + (c.toNat - 48) := by
  simp [charsToNat, List.foldl_append]

theorem charsToNat_natDigs (n : Nat) : charsToNat (natDigs n) = n := by
  induction n using Nat.strong_induction_on with
  | _ n ih =>
    match n with
    | 0 => simp [natDigs, charsToNat]
    | m+1 =>
      rw [natDigs, charsToNat_append_singleton,
        ih ((m+1) / 10) (Nat.div_lt_self (Nat.succ_pos m) (by decide)),
        digitChar_toNat _ (Nat.mod_lt _ (by decide))]
      omega

theorem natDigs_head (n : Nat) (h : n ≠ 0) :
    ∃ c t, natDigs n = c :: t ∧ c ≠ '0' ∧ c.isDigit = true := by
  induction n using Nat.strong_induction_on with
  | _ n ih =>
    match n, h with
    | m+1, _ =>
      by_cases hq : (m+1) / 10 = 0
      · refine ⟨digitChar ((m+1) % 10), [], ?_, ?_, ?_⟩
        · rw [natDigs, hq]
          simp [natDigs]
        · exact digitChar_ne_zero _ (by omega) (Nat.mod_lt _ (by decide))
        · exact digitChar_isDigit _ (Nat.mod_lt _ (by decide))
      · obtain ⟨c, t, he, hc0, hcd⟩ :=
          ih ((m+1) / 10) (Nat.div_lt_self (Nat.succ_pos m) (by decide)) hq
        exact ⟨c, t ++ [digitChar ((m+1) % 10)], by rw [natDigs, he]; rfl, hc0, hcd⟩

theorem takeWhile_digits_append (l1 l2 : List Char) (h : ∀ x ∈ l1, x.isDigit = true)
    (h2 : headNotDigit l2 = true) : (l1 ++ l2).takeWhile Char.isDigit = l1 := by
  induction l1 with
  | nil =>
    cases l2 with
    | nil => rfl
    | cons c t =>
      simp only [headNotDigit, Bool.not_eq_true'] at h2
      simp [List.takeWhile_cons, h2]
  | cons c l1 ih =>
    have hc := h c (List.mem_cons_self c l1)
    have ihh := ih (fun x hx => h x (List.mem_cons_of_mem c hx))
    simp [List.takeWhile_cons, hc, ihh]

theorem dropWhile_digits_append (l1 l2 : List Char) (h : ∀ x ∈ l1, x.isDigit = true)
    (h2 : headNotDigit l2 = true) : (l1 ++ l2).dropWhile Char.isDigit = l2 := by
  induction l1 with
  | nil =>
    cases l2 with
    | nil => rfl
    | cons c t =>
      simp only [headNotDigit, Bool.not_eq_true'] at h2
      simp [List.dropWhile_cons, h2]
  | cons c l1 ih =>
    have hc := h c (List.mem_cons_self c l1)
    have ihh := ih (fun x hx => h x (List.mem_cons_of_mem c hx))
    simp [List.dropWhile_cons, hc, ihh]

theorem parseUNum_natChars (n : Nat) (rest : List Char) (hr : headNotDigit rest = true) :
    parseUNum (natChars n ++ rest) = some (n, rest) := by
  by_cases h0 : n = 0
  · subst h0
    rfl
  · obtain ⟨c, t, he, hc0, hcd⟩ := natDigs_head n h0
    have hall : ∀ x ∈ t, x.isDigit = true := fun x hx =>
      natDigs_all_digits n x (by rw [he]; exact List.mem_cons_of_mem c hx)
    rw [show natChars n = natDigs n from by simp [natChars, h0], he, List.cons_append]
    simp only [parseUNum, if_neg hc0, hcd, if_pos rfl, if_true,
      takeWhile_digits_append t rest hall hr, dropWhile_digits_append t rest hall hr]
    rw [show c :: t = natDigs n from he.symm, charsToNat_natDigs]

theorem natChars_head (n : Nat) :
    ∃ c t, natChars n = c :: t ∧ c.isDigit = true := by
  by_cases h0 : n = 0
  · subst h0
    exact ⟨'0', [], rfl, by decide⟩
  · obtain ⟨c, t, he, _, hcd⟩ := natDigs_head n h0
    exact ⟨c, t, by simp [natChars, h0, he], hcd⟩

theorem parseNum_intChars (i : Int) (rest : List Char) (hr : headNotDigit rest = true) :
    parseNum (intChars i ++ rest) = some (i, rest) := by
  by_cases hneg : i < 0
  · rw [show intChars i = '-' :: natChars i.natAbs from by simp [intChars, hneg],
      List.cons_append]
    rw [show parseNum ('-' :: (natChars i.natAbs ++ rest))
        = (parseUNum (natChars i.natAbs ++ rest)).map (fun r => (-(r.1 : Int), r.2)) from rfl]
    rw [parseUNum_natChars _ _ hr]
    have hcast : -((i.natAbs : Nat) : Int) = i := by omega
    show some (-((i.natAbs : Nat) : Int), rest) = some (i, rest)
    rw [hcast]
  · obtain ⟨c, t, he, hcd⟩ := natChars_head i.natAbs
    have hcm : c ≠ '-' := digit_ne c '-' hcd (by decide)
    rw [show intChars i = natChars i.natAbs from by simp [intChars, hneg], he,
      List.cons_append]
    rw [parseNum.eq_def]
    split
    · rename_i heq
      rw [List.cons.injEq] at heq
      exact absurd heq.1 hcm
    · rw [← List.cons_append, ← he, parseUNum_natChars _ _ hr]
      have hcast : ((i.natAbs : Nat) : Int) = i := by omega
      show some (((i.natAbs : Nat) : Int), rest) = some (i, rest)
      rw [hcast]

theorem intChars_head (i : Int) :
    ∃ c t, intChars i = c :: t ∧ (c = '-' ∨ c.isDigit = true) := by
  by_cases hneg : i < 0
  · exact ⟨'-', natChars i.natAbs, by simp [intChars, hneg], Or.inl rfl⟩
  · obtain ⟨c, t, he, hcd⟩ := natChars_head i.natAbs
    exact ⟨c, t, by simp [intChars, hneg, he], Or.inr hcd⟩

theorem encChars_head (v : Json) :
    ∃ c t, encChars v = c :: t
      ∧ (c = 'n' ∨ c = 't' ∨ c = 'f' ∨ c = '"' ∨ c = '[' ∨ c = '{' ∨ c = '-'
          ∨ c.isDigit = true) := by
  cases v with
  | null => exact ⟨'n', _, rfl, by simp⟩
  | bool b =>
    cases b with
    | true => exact ⟨'t', _, rfl, by simp⟩
    | false => exact ⟨'f', _, rfl, by simp⟩
  | num i =>
    obtain ⟨c, t, he, hc⟩ := intChars_head i
    exact ⟨c, t, by rw [show encChars (.num i) = intChars i from rfl, he], by tauto⟩
  | str s => exact ⟨'"', _, rfl, by simp⟩
  | arr xs =>
    cases xs with
    | nil => exact ⟨'[', _, rfl, by simp⟩
    | cons x xs => exact ⟨'[', _, rfl, by simp⟩
  | obj ms =>
    cases ms with
    | nil => exact ⟨'{', _, rfl, by simp⟩
    | cons m ms => exact ⟨'{', _, rfl, by simp⟩

theorem encHead_not_ws (c : Char)
    (h : c = 'n' ∨ c = 't' ∨ c = 'f' ∨ c = '"' ∨ c = '[' ∨ c = '{' ∨ c = '-'
        ∨ c.isDigit = true) : isWsChar c = false := by
  rcases h with rfl | rfl | rfl | rfl | rfl | rfl | rfl | hd
  · rfl
  · rfl
  · rfl
  · rfl
  · rfl
  · rfl
  · rfl
  · simp only [isWsChar, Bool.or_eq_false_iff, beq_eq_false_iff_ne, ne_eq]
    exact ⟨⟨⟨digit_ne c ' ' hd (by decide), digit_ne c '\t' hd (by decide)⟩,
      digit_ne c '\n' hd (by decide)⟩, digit_ne c '\r' hd (by decide)⟩

theorem skipWs_not (c : Char) (cs : List Char) (h : isWsChar c = false) :
    skipWs (c :: cs) = c :: cs := by
  simp [skipWs, h]

theorem parseValue_ws (f : Nat) (c : Char) (cs : List Char) (h : isWsChar c = true) :
    parseValue f (c :: cs) = parseValue f cs := by
  cases f with
  | zero => rfl
  | succ f =>
    simp only [parseValue, skipWs, h, if_true, if_pos rfl]

theorem parseItems_ws (f : Nat) (c : Char) (cs : List Char) (h : isWsChar c = true) :
    parseItems f (c :: cs) = parseItems f cs := by
  cases f with
  | zero => rfl
  | succ f =>
    simp only [parseItems, parseValue_ws f c cs h]

theorem parseMembers_ws (f : Nat) (c : Char) (cs : List Char) (h : isWsChar c = true) :
    parseMembers f (c :: cs) = parseMembers f cs := by
  cases f with
  | zero => rfl
  | succ f =>
    simp only [parseMembers, skipWs, h, if_true, if_pos rfl]

theorem pvStr (f : Nat) (X : List Char) :
    parseValue (f+1) ('"'::X)
      = (parseStrBody (X.length+1) X).map (fun r => (Json.str ⟨r.1⟩, r.2)) := rfl

theorem pvArr (f : Nat) (X : List Char) :
    parseValue (f+1) ('['::X)
      = (match skipWs X with
         | ']'::r2 => some (.arr [], r2)
         | _ => (parseItems f X).map (fun r => (Json.arr r.1, r.2))) := rfl

theorem pvObj (f : Nat) (X : List Char) :
    parseValue (f+1) ('{'::X)
      = (match skipWs X with
         | '}'::r2 => some (.obj [], r2)
         | _ => (parseMembers f X).map (fun r => (Json.obj r.1, r.2))) := rfl

theorem headNotDigit_items (xs : List Json) (rest : List Char) :
    headNotDigit (encItems xs ++ ']' :: rest) = true := by
  cases xs <;> rfl

theorem headNotDigit_members (ms : List (String × Json)) (rest : List Char) :
    headNotDigit (encMembers ms ++ '}' :: rest) = true := by
  cases ms with
  | nil => rfl
  | cons m ms => rfl

theorem pmKey (f : Nat) (X : List Char) :
    parseMembers (f+1) ('"'::X)
      = (match parseStrBody (X.length+1) X with
         | Option.none => Option.none
         | some (k, r) =>
           match skipWs r with
           | ':' :: r2 =>
             (match parseValue f r2 with
              | Option.none => Option.none
              | some (v, r3) =>
                match skipWs r3 with
                | ',' :: r4 => (parseMembers f r4).map (fun t => ((⟨k⟩, v) :: t.1, t.2))
                | '}' :: r4 => some ([(⟨k⟩, v)], r4)
                | _ => Option.none)
           | _ => Option.none) := rfl

theorem jfuel_pos (v : Json) : 1 ≤ jfuel v := by
  cases v <;> simp [jfuel]

/-- The fueled parser consumes exactly the canonical encoding: the value
statement, the nonempty-array-items statement and the nonempty-object
-members statement, proved together by strong induction on the fuel. -/
theorem parse_enc_master (f : Nat) :
    (∀ (v : Json) (rest : List Char), headNotDigit rest = true → jfuel v ≤ f →
      parseValue f (encChars v ++ rest) = some (v, rest))
    ∧ (∀ (x : Json) (xs : List Json) (rest : List Char), jfuelItems (x :: xs) ≤ f →
      parseItems f (encChars x ++ (encItems xs ++ (']' :: rest))) = some (x :: xs, rest))
    ∧ (∀ (k : String) (v : Json) (ms : List (String × Json)) (rest : List Char),
        jfuelMembers ((k, v) :: ms) ≤ f →
      parseMembers f (encMember (k, v) ++ (encMembers ms ++ ('}' :: rest)))
        = some ((k, v) :: ms, rest)) := by
  induction f using Nat.strong_induction_on with
  | _ f IH =>
  refine ⟨?_, ?_, ?_⟩
  · -- values
    intro v rest hr hf
    cases f with
    | zero => exact absurd hf (by have := jfuel_pos v; omega)
    | succ f =>
      cases v with
      | null => rfl
      | bool b => cases b <;> rfl
      | num i =>
        obtain ⟨c, t, he, hcase⟩ := intChars_head i
        rw [show encChars (.num i) = intChars i from rfl, he, List.cons_append]
        have hw : isWsChar c = false := by
          apply encHead_not_ws
          tauto
        have hn : c ≠ 'n' := by
          rcases hcase with rfl | hd
          · decide
          · exact digit_ne c 'n' hd (by decide)
        have ht : c ≠ 't' := by
          rcases hcase with rfl | hd
          · decide
          · exact digit_ne c 't' hd (by decide)
        have hf2 : c ≠ 'f' := by
          rcases hcase with rfl | hd
          · decide
          · exact digit_ne c 'f' hd (by decide)
        have hq : c ≠ '"' := by
          rcases hcase with rfl | hd
          · decide
          · exact digit_ne c '"' hd (by decide)
        have hb : c ≠ '[' := by
          rcases hcase with rfl | hd
          · decide
          · exact digit_ne c '[' hd (by decide)
        have hc2 : c ≠ '{' := by
          rcases hcase with rfl | hd
          · decide
          · exact digit_ne c '{' hd (by decide)
        simp only [parseValue, skipWs, hw, Bool.false_eq_true, if_false]
        split
        · rename_i heq
          rw [List.cons.injEq] at heq
          exact absurd heq.1 hn
        · rename_i heq
          rw [List.cons.injEq] at heq
          exact absurd heq.1 ht
        · rename_i heq
          rw [List.cons.injEq] at heq
          exact absurd heq.1 hf2
        · rename_i heq
          rw [List.cons.injEq] at heq
          exact absurd heq.1 hq
        · rename_i heq
          rw [List.cons.injEq] at heq
          exact absurd heq.1 hb
        · rename_i heq
          rw [List.cons.injEq] at heq
          exact absurd heq.1 hc2
        · rw [← List.cons_append, ← he, parseNum_intChars i rest hr]
          rfl
      | str s =>
        rw [show encChars (.str s) ++ rest
            = '"' :: (escBody s.data ++ '"' :: rest) from by
          rw [show encChars (.str s) = '"' :: (escBody s.data ++ ['"']) from rfl]
          simp]
        rw [pvStr]
        have hlen : s.data.length < (escBody s.data ++ '"' :: rest).length + 1 := by
          have h1 := escBody_length s.data
          rw [List.length_append]
          omega
        rw [parseStrBody_escBody s.data rest _ hlen]
        rfl
      | arr xs =>
        cases xs with
        | nil => rfl
        | cons x xs =>
          rw [show encChars (.arr (x :: xs)) ++ rest
              = '[' :: (encChars x ++ (encItems xs ++ (']' :: rest))) from by
            rw [show encChars (.arr (x :: xs))
                = '[' :: (encChars x ++ encItems xs) ++ [']'] from rfl]
            simp]
          rw [pvArr]
          obtain ⟨c, t, he, hcase⟩ := encChars_head x
          have hw : isWsChar c = false := encHead_not_ws c hcase
          have hrb : c ≠ ']' := by
            rcases hcase with rfl | rfl | rfl | rfl | rfl | rfl | rfl | hd
            · decide
            · decide
            · decide
            · decide
            · decide
            · decide
            · decide
            · exact digit_ne c ']' hd (by decide)
          rw [he, List.cons_append, skipWs_not c _ hw]
          have hfi : jfuelItems (x :: xs) ≤ f := by
            simp only [jfuel] at hf
            omega
          split
          · rename_i heq
            rw [List.cons.injEq] at heq
            exact absurd heq.1 hrb
          · rw [← List.cons_append, ← he, (IH f (Nat.lt_succ_self f)).2.1 x xs rest hfi]
            rfl
      | obj ms =>
        cases ms with
        | nil => rfl
        | cons m ms =>
          obtain ⟨k, v⟩ := m
          rw [show encChars (.obj ((k, v) :: ms)) ++ rest
              = '{' :: (encMember (k, v) ++ (encMembers ms ++ ('}' :: rest))) from by
            rw [show encChars (.obj ((k, v) :: ms))
                = '{' :: (encMember (k, v) ++ encMembers ms) ++ ['}'] from rfl]
            simp]
          rw [pvObj]
          have hfm : jfuelMembers ((k, v) :: ms) ≤ f := by
            simp only [jfuel] at hf
            omega
          rw [show encMember (k, v) ++ (encMembers ms ++ ('}' :: rest))
              = '"' :: (escBody k.data ++ ('"' :: ':' :: ' '
                  :: (encChars v ++ (encMembers ms ++ ('}' :: rest))))) from by
            rw [show encMember (k, v)
                = ('"' :: escBody k.data ++ ['"']) ++ ':' :: ' ' :: encChars v from rfl]
            simp]
          rw [show skipWs ('"' :: (escBody k.data ++ ('"' :: ':' :: ' '
              :: (encChars v ++ (encMembers ms ++ ('}' :: rest))))))
              = '"' :: (escBody k.data ++ ('"' :: ':' :: ' '
              :: (encChars v ++ (encMembers ms ++ ('}' :: rest))))) from rfl]
          rw [show (match '"' :: (escBody k.data ++ ('"' :: ':' :: ' '
              :: (encChars v ++ (encMembers ms ++ ('}' :: rest))))) with
             | '}'::r2 => some (Json.obj [], r2)
             | _ => (parseMembers f ('"' :: (escBody k.data ++ ('"' :: ':' :: ' '
                  :: (encChars v ++ (encMembers ms ++ ('}' :: rest))))))).map
                    (fun r => (Json.obj r.1, r.2)))
              = (parseMembers f ('"' :: (escBody k.data ++ ('"' :: ':' :: ' '
                  :: (encChars v ++ (encMembers ms ++ ('}' :: rest))))))).map
                    (fun r => (Json.obj r.1, r.2)) from rfl]
          rw [show '"' :: (escBody k.data ++ ('"' :: ':' :: ' '
              :: (encChars v ++ (encMembers ms ++ ('}' :: rest)))))
              = encMember (k, v) ++ (encMembers ms ++ ('}' :: rest)) from by
            rw [show encMember (k, v)
                = ('"' :: escBody k.data ++ ['"']) ++ ':' :: ' ' :: encChars v from rfl]
            simp]
          rw [(IH f (Nat.lt_succ_self f)).2.2 k v ms rest hfm]
          rfl
  · -- array items
    intro x xs rest hf
    cases f with
    | zero =>
      exact absurd hf (by simp only [jfuelItems]; omega)
    | succ f =>
      have hjx : jfuel x ≤ f := by
        simp only [jfuelItems] at hf
        omega
      have hv := (IH f (Nat.lt_succ_self f)).1 x (encItems xs ++ ']' :: rest)
        (headNotDigit_items xs rest) hjx
      simp only [parseItems, hv]
      cases xs with
      | nil => rfl
      | cons y ys =>
        rw [show encItems (y :: ys) ++ ']' :: rest
            = ',' :: ' ' :: (encChars y ++ (encItems ys ++ (']' :: rest))) from by
          rw [show encItems (y :: ys) = ',' :: ' ' :: encChars y ++ encItems ys from rfl]
          simp]
        rw [show skipWs (',' :: ' ' :: (encChars y ++ (encItems ys ++ (']' :: rest))))
            = ',' :: ' ' :: (encChars y ++ (encItems ys ++ (']' :: rest))) from rfl]
        have hfi : jfuelItems (y :: ys) ≤ f := by
          simp only [jfuelItems] at hf ⊢
          omega
        rw [show (match (',' :: ' ' :: (encChars y ++ (encItems ys ++ (']' :: rest)))) with
           | ','::r2 => (parseItems f r2).map (fun t => (x :: t.1, t.2))
           | ']'::r2 => some ([x], r2)
           | _ => Option.none)
            = (parseItems f (' ' :: (encChars y ++ (encItems ys ++ (']' :: rest))))).map
                (fun t => (x :: t.1, t.2)) from rfl]
        rw [parseItems_ws f ' ' _ rfl,
          (IH f (Nat.lt_succ_self f)).2.1 y ys rest hfi]
        rfl
  · -- object members
    intro k v ms rest hf
    cases f with
    | zero =>
      exact absurd hf (by simp only [jfuelMembers]; omega)
    | succ f =>
      have hjv : jfuel v ≤ f := by
        simp only [jfuelMembers] at hf
        omega
      rw [show encMember (k, v) ++ (encMembers ms ++ ('}' :: rest))
          = '"' :: (escBody k.data ++ ('"' :: ':' :: ' '
              :: (encChars v ++ (encMembers ms ++ ('}' :: rest))))) from by
        rw [show encMember (k, v)
            = ('"' :: escBody k.data ++ ['"']) ++ ':' :: ' ' :: encChars v from rfl]
        simp]
      have hlen : k.data.length
          < (escBody k.data ++ ('"' :: ':' :: ' '
              :: (encChars v ++ (encMembers ms ++ ('}' :: rest))))).length + 1 := by
        have h1 := escBody_length k.data
        rw [List.length_append]
        omega
      have hstr := parseStrBody_escBody k.data
        (':' :: ' ' :: (encChars v ++ (encMembers ms ++ ('}' :: rest)))) _ hlen
      have hval := (IH f (Nat.lt_succ_self f)).1 v (encMembers ms ++ '}' :: rest)
        (headNotDigit_members ms rest) hjv
      simp only [pmKey, hstr]
      show (match parseValue f (' ' :: (encChars v ++ (encMembers ms ++ '}' :: rest))) with
            | Option.none => Option.none
            | some (v', r3) =>
              match skipWs r3 with
              | ',' :: r4 => (parseMembers f r4).map
                  (fun t => ((String.mk k.data, v') :: t.1, t.2))
              | '}' :: r4 => some ([(String.mk k.data, v')], r4)
              | _ => Option.none)
          = some ((k, v) :: ms, rest)
      have hstep : parseValue f (' ' :: (encChars v ++ (encMembers ms ++ '}' :: rest)))
          = some (v, encMembers ms ++ '}' :: rest) := by
        rw [parseValue_ws f ' ' _ rfl, hval]
      simp only [hstep]
      cases ms with
      | nil => rfl
      | cons m' ms' =>
        obtain ⟨k', v'⟩ := m'
        have hfm : jfuelMembers ((k', v') :: ms') ≤ f := by
          simp only [jfuelMembers] at hf ⊢
          omega
        have hrec : parseMembers f (' '
              :: (encMember (k', v') ++ (encMembers ms' ++ ('}' :: rest))))
            = some ((k', v') :: ms', rest) := by
          rw [parseMembers_ws f ' ' _ rfl,
            (IH f (Nat.lt_succ_self f)).2.2 k' v' ms' rest hfm]
        rw [show encMembers ((k', v') :: ms') ++ '}' :: rest
            = ',' :: ' ' :: (encMember (k', v') ++ (encMembers ms' ++ ('}' :: rest))) from by
          rw [show encMembers ((k', v') :: ms')
              = ',' :: ' ' :: encMember (k', v') ++ encMembers ms' from rfl]
          simp]
        rw [show skipWs (',' :: ' '
              :: (encMember (k', v') ++ (encMembers ms' ++ ('}' :: rest))))
            = ',' :: ' ' :: (encMember (k', v') ++ (encMembers ms' ++ ('}' :: rest)))
            from rfl]
        simp only [hrec]
        rfl

mutual

theorem jfuel_le_enc (v : Json) : jfuel v ≤ (encChars v).length := by
  cases v with
  | null => simp [jfuel, encChars]
  | bool b => cases b <;> simp [jfuel, encChars]
  | num i =>
    obtain ⟨c, t, he, _⟩ := intChars_head i
    rw [show encChars (.num i) = intChars i from rfl, he]
    simp [jfuel]
  | str s => simp [jfuel, encChars, encStr]
  | arr xs =>
    cases xs with
    | nil => simp [jfuel, jfuelItems, encChars]
    | cons x xs =>
      have h1 := jfuel_le_enc x
      have h2 := jfuelItems_le_enc xs
      rw [show encChars (.arr (x :: xs))
          = '[' :: (encChars x ++ encItems xs) ++ [']'] from rfl]
      simp only [jfuel, jfuelItems, List.length_append, List.length_cons]
      omega
  | obj ms =>
    cases ms with
    | nil => simp [jfuel, jfuelMembers, encChars]
    | cons m ms =>
      obtain ⟨k, v⟩ := m
      have h1 := jfuel_le_enc v
      have h2 := jfuelMembers_le_enc ms
      rw [show encChars (.obj ((k, v) :: ms))
          = '{' :: (encMember (k, v) ++ encMembers ms) ++ ['}'] from rfl]
      rw [show encMember (k, v) = encStr k ++ ':' :: ' ' :: encChars v from rfl]
      simp only [jfuel, jfuelMembers, List.length_append, List.length_cons]
      omega

theorem jfuelItems_le_enc (xs : List Json) : jfuelItems xs ≤ (encItems xs).length := by
  cases xs with
  | nil => simp [jfuelItems, encItems]
  | cons y ys =>
    have h1 := jfuel_le_enc y
    have h2 := jfuelItems_le_enc ys
    rw [show encItems (y :: ys) = ',' :: ' ' :: encChars y ++ encItems ys from rfl]
    simp only [jfuelItems, List.length_append, List.length_cons]
    omega

theorem jfuelMembers_le_enc (ms : List (String × Json)) :
    jfuelMembers ms ≤ (encMembers ms).length := by
  cases ms with
  | nil => simp [jfuelMembers, encMembers]
  | cons m ms =>
    obtain ⟨k, v⟩ := m
    have h1 := jfuel_le_enc v
    have h2 := jfuelMembers_le_enc ms
    rw [show encMembers ((k, v) :: ms)
        = ',' :: ' ' :: encMember (k, v) ++ encMembers ms from rfl]
    rw [show encMember (k, v) = encStr k ++ ':' :: ' ' :: encChars v from rfl]
    simp only [jfuelMembers, List.length_append, List.length_cons]
    omega

end

/-- Claim C8 (confirmed): for the baseline codec, decoding the encoding
returns the original value for every JSON-representable value of the
model (objects with unique string keys, arrays, strings over Unicode
scalar values — including non-ASCII text emitted as escape sequences —
arbitrary-precision integers, booleans and null), at any nesting depth. -/
theorem C8_round_trip (v : Json) (h : uniqueKeysB v = true) :
    jsonLoads (jsonDumps v) = Except.ok v := by
  have hb := jfuel_le_enc v
  have hlen : (jsonDumps v).length = (encChars v).length := rfl
  have hm := (parse_enc_master ((jsonDumps v).length + 1)).1 v [] rfl (by omega)
  rw [List.append_nil] at hm
  unfold jsonLoads
  rw [show (jsonDumps v).data = encChars v from rfl]
  rw [hm]
  rfl

theorem uniqueKeysB_deepNest (n : Nat) : uniqueKeysB (deepNest n) = true := by
  induction n with
  | zero => rfl
  | succ n ih => simp [deepNest, uniqueKeysB, uniqueKeysList, ih]

theorem C8_witness :
    jsonLoads (jsonDumps (deepNest 1000)) = Except.ok (deepNest 1000) :=
  C8_round_trip (deepNest 1000) (uniqueKeysB_deepNest 1000)

theorem C9_witness :
    (SourceClassifier.classify_source (.str "data.json") flagsProbeOnly
        (Fs.update emptyFs "data.json" (.file "x"))).1 = .ok (.PATH, .npath "data.json")
    ∧ (openPath ((SourceClassifier.classify_source (.str "data.json") flagsProbeOnly
        (Fs.update emptyFs "data.json" (.file "x"))).2) "json" "data.json").1
        = .error (.fileNotFound "data.json") := by
  have h := C9_probe_deletes_existing "data.json" "x" flagsProbeOnly
    (Fs.update emptyFs "data.json" (.file "x")) rfl rfl rfl rfl (by decide) rfl
  exact ⟨h.1, h.2.2⟩

end Jsonio
